import Mathlib

/-!
# The stage-2 tape builder of simdjson

A shallow embedding of `src/generic/stage2/tape_builder.h`.

* Machine integers are natural numbers; every place where the C++ code truncates to
  `uint32_t` or `uint64_t` carries an explicit `% 2 ^ 32` or `% 2 ^ 64`.
* Pointers into the document's tape and string buffer are offsets from the start of the
  respective allocation (`next_tape_loc`, `current_string_buf_loc`).
* The tape and the string buffer are total maps from offsets to words and bytes; their
  capacity is fixed by the document store, which is outside this file.
* The open-container array and the array/object flag array have `max_depth` entries;
  an access at an index that is not below `max_depth` is undefined behaviour in C++ and
  is `none` here.
* The decoders for strings, numbers and literals, the allocator and the type-tag
  enumeration are collaborators declared outside the source file; they are fields of
  `externals`.
* Logging calls (`iter.log_value`, `iter.log_error`, ...) have no effect on the state.
-/

namespace stage2

/-- One byte of input or of the string buffer. -/
abbrev byte := Fin 256

/-- The result codes the builder returns. -/
inductive error_code where
  | SUCCESS
  | DEPTH_ERROR
  | TAPE_ERROR
  | STRING_ERROR
  | NUMBER_ERROR
  | T_ATOM_ERROR
  | F_ATOM_ERROR
  | N_ATOM_ERROR
  | MEMALLOC
  deriving DecidableEq, Repr

/-- The type tags the builder passes to the tape writer (`internal::tape_type`). -/
inductive tape_type where
  | ROOT
  | START_OBJECT
  | END_OBJECT
  | START_ARRAY
  | END_ARRAY
  | STRING
  | TRUE_VALUE
  | FALSE_VALUE
  | NULL_VALUE
  deriving DecidableEq, Repr

/-- The collaborators of the builder that are declared outside `tape_builder.h`.

* `max_depth` is `iter.dom_parser.max_depth()`;
* `tag t` is the 8-bit value of the enumerator `t` of `internal::tape_type`;
* `parse_string value` is `stringparsing::parse_string(value, dst)`: `none` when it
  returns `nullptr`, otherwise the decoded bytes it stored from `dst` on (it returns the
  address after the last of them);
* `parse_number value` is `numberparsing::parse_number(value, tape)`: `none` when it
  returns `false`, otherwise the 64-bit words it appended to the tape;
* `is_valid_*_atom value` and `is_valid_*_atom_len value len` are the one- and
  two-argument literal validators of `atomparsing`;
* `malloc n` tells whether `malloc(n)` returns a non-null address;
* `SIMDJSON_PADDING` is the constant of that name. -/
structure externals where
  max_depth : Nat
  tag : tape_type → Fin 256
  SIMDJSON_PADDING : Nat
  parse_string : List byte → Option (List byte)
  parse_number : List byte → Option (List Nat)
  is_valid_true_atom : List byte → Bool
  is_valid_true_atom_len : List byte → Nat → Bool
  is_valid_false_atom : List byte → Bool
  is_valid_false_atom_len : List byte → Nat → Bool
  is_valid_null_atom : List byte → Bool
  is_valid_null_atom_len : List byte → Nat → Bool
  malloc : Nat → Bool

/-- What the builder reads from the `json_iterator`: `remaining_len()` and the offset
`next_structural - &dom_parser.structural_indexes[0]`. -/
structure json_iterator where
  remaining_len : Nat
  next_structural : Nat

/-- An entry of `dom_parser.open_containers`: two `uint32_t` fields. -/
structure open_container where
  tape_index : Nat
  count : Nat
  deriving DecidableEq, Repr

/-- The state the builder works on.

* `open_containers`, `is_array`, `next_structural_index` belong to `iter.dom_parser`;
* `doc_tape` and `doc_string_buf` are `iter.dom_parser.doc->tape` and `->string_buf`;
* `next_tape_loc` is `tape.next_tape_loc`, as an offset in slots from `doc->tape`;
* `current_string_buf_loc` is the member of that name, as an offset in bytes from
  `doc->string_buf`;
* `depth` is the `uint32_t` member of that name. -/
structure tape_builder where
  open_containers : Nat → open_container
  is_array : Nat → Bool
  next_structural_index : Nat
  doc_tape : Nat → Nat
  doc_string_buf : Nat → byte
  next_tape_loc : Nat
  current_string_buf_loc : Nat
  depth : Nat

/-- The constructor `tape_builder(doc)`: both cursors at the start of the document's
buffers, depth 0; the parser's arrays and the document's memory are whatever they were. -/
def tape_builder.init (mem : tape_builder) : tape_builder :=
  { mem with next_tape_loc := 0, current_string_buf_loc := 0, depth := 0 }

/-- Modelled from the spec: the word the tape writer stores for `(val, t)`, a 64-bit tagged
word with the type in the top 8 bits and the payload below (`tape_writer.h` is absent). -/
def tape_word (x : externals) (val : Nat) (t : tape_type) : Nat :=
  (val % 2 ^ 64) ||| ((x.tag t).val <<< 56)

/-- Modelled from the spec: `tape.append(val, t)` stores one tagged word at the next free
slot and advances the cursor by one slot. -/
def tape_writer.append (x : externals) (s : tape_builder) (val : Nat) (t : tape_type) :
    tape_builder :=
  { s with doc_tape := Function.update s.doc_tape s.next_tape_loc (tape_word x val t),
           next_tape_loc := s.next_tape_loc + 1 }

/-- Modelled from the spec: `tape.skip()` reserves one slot without writing it. -/
def tape_writer.skip (s : tape_builder) : tape_builder :=
  { s with next_tape_loc := s.next_tape_loc + 1 }

/-- Modelled from the spec: `tape_writer::write(doc->tape[i], val, t)` overwrites slot `i`. -/
def tape_writer.write (x : externals) (s : tape_builder) (i : Nat) (val : Nat)
    (t : tape_type) : tape_builder :=
  { s with doc_tape := Function.update s.doc_tape i (tape_word x val t) }

/-- Modelled from the spec: the 56-bit payload of a tape word, as a reader extracts it. -/
def tape_payload (w : Nat) : Nat := w % 2 ^ 56

/-- Modelled from the spec: the 8-bit type tag of a tape word. -/
def tape_tag (w : Nat) : Nat := w / 2 ^ 56

/-- Modelled from the spec: the index field of a container-start entry, the low 32 bits
of its payload. -/
def tape_index_field (w : Nat) : Nat := tape_payload w % 2 ^ 32

/-- Modelled from the spec: the count field of a container-start entry, bits 32..55. -/
def tape_count_field (w : Nat) : Nat := (tape_payload w / 2 ^ 32) % 2 ^ 24

namespace tape_builder

/-- Source `next_tape_index`: the pointer difference cast to `uint32_t`. -/
def next_tape_index (s : tape_builder) : Nat := s.next_tape_loc % 2 ^ 32

/-- Source `empty_container`; `start_index + 2` is `uint32_t` arithmetic. -/
def empty_container (x : externals) (s : tape_builder) (start end_ : tape_type) :
    Option (error_code × tape_builder) :=
  let start_index := next_tape_index s
  let s1 := tape_writer.append x s ((start_index + 2) % 2 ^ 32) start
  let s2 := tape_writer.append x s1 start_index end_
  some (error_code.SUCCESS, s2)

/-- Source `start_container`: writes `open_containers[depth]`, then skips one slot. -/
def start_container (x : externals) (s : tape_builder) : Option tape_builder :=
  if s.depth < x.max_depth then
    let oc := Function.update s.open_containers s.depth
      (open_container.mk (next_tape_index s) 1)
    some (tape_writer.skip { s with open_containers := oc })
  else none

/-- The assignment `iter.dom_parser.is_array[depth] = b`. -/
def set_is_array (x : externals) (s : tape_builder) (b : Bool) : Option tape_builder :=
  if s.depth < x.max_depth then
    some { s with is_array := Function.update s.is_array s.depth b }
  else none

/-- Source `end_container(iter, start, end)`. -/
def end_container (x : externals) (s : tape_builder) (start end_ : tape_type) :
    Option (error_code × tape_builder) :=
  if s.depth < x.max_depth then
    let start_tape_index := (s.open_containers s.depth).tape_index
    let s1 := tape_writer.append x s start_tape_index end_
    let count := (s.open_containers s.depth).count
    let cntsat := if count > 0xFFFFFF then 0xFFFFFF else count
    let s2 := tape_writer.write x s1 start_tape_index
      (next_tape_index s1 ||| (cntsat <<< 32)) start
    some (error_code.SUCCESS, s2)
  else none

/-- Source `on_start_string`: appends the STRING entry, returns the state and `dst`. -/
def on_start_string (x : externals) (s : tape_builder) : tape_builder × Nat :=
  (tape_writer.append x s s.current_string_buf_loc tape_type.STRING,
   s.current_string_buf_loc + 4)

/-- The bytes `bs` stored from offset `dst` on. -/
def store_bytes (buf : Nat → byte) (dst : Nat) (bs : List byte) : Nat → byte :=
  fun i => if dst ≤ i ∧ i < dst + bs.length then bs.getD (i - dst) 0 else buf i

/-- The four bytes of a `uint32_t` in memory order (little-endian host). -/
def u32_bytes (n : Nat) : List byte :=
  [Fin.ofNat (n % 256), Fin.ofNat (n / 2 ^ 8 % 256), Fin.ofNat (n / 2 ^ 16 % 256),
   Fin.ofNat (n / 2 ^ 24 % 256)]

/-- Source `on_end_string(dst)`. -/
def on_end_string (s : tape_builder) (dst : Nat) : tape_builder :=
  let str_length := (dst - (s.current_string_buf_loc + 4)) % 2 ^ 32
  let buf1 := store_bytes s.doc_string_buf s.current_string_buf_loc (u32_bytes str_length)
  let buf2 := Function.update buf1 dst 0
  { s with doc_string_buf := buf2, current_string_buf_loc := dst + 1 }

/-- Modelled from the spec: `stringparsing::parse_string(value, dst)` on the string buffer
`buf`. On a string it cannot decode it returns `nullptr` (`none`); otherwise it copies the
decoded bytes to `dst` and the addresses after it and returns the buffer and the address
after the last decoded byte. -/
def stringparsing_parse_string (x : externals) (buf : Nat → byte) (value : List byte)
    (dst : Nat) : Option ((Nat → byte) × Nat) :=
  match x.parse_string value with
  | none => none
  | some decoded => some (store_bytes buf dst decoded, dst + decoded.length)

/-- Source `parse_string(iter, value, key)`; the flag only selects the log label. -/
def parse_string (x : externals) (s : tape_builder) (value : List byte)
    (_key : Bool) : Option (error_code × tape_builder) :=
  let (s1, dst) := on_start_string x s
  match stringparsing_parse_string x s1.doc_string_buf value dst with
  | none => some (error_code.STRING_ERROR, s1)
  | some (buf, dst1) =>
    some (error_code.SUCCESS, on_end_string { s1 with doc_string_buf := buf } dst1)

/-- Modelled from the spec: the tape after the number decoder appended the words `ws`
through the tape writer, one slot each. -/
def append_words (s : tape_builder) : List Nat → tape_builder
  | [] => s
  | w :: ws =>
    append_words
      { s with doc_tape := Function.update s.doc_tape s.next_tape_loc (w % 2 ^ 64),
               next_tape_loc := s.next_tape_loc + 1 } ws

/-- Modelled from the spec: `numberparsing::parse_number(value, tape)`. On a malformed
number it returns `false` (`none`) and has written nothing; otherwise it has appended its
one or two words to the tape. -/
def numberparsing_parse_number (x : externals) (s : tape_builder) (value : List byte) :
    Option tape_builder :=
  match x.parse_number value with
  | none => none
  | some ws => some (append_words s ws)

/-- Source `parse_number(iter, value)`. -/
def parse_number (x : externals) (s : tape_builder) (value : List byte) :
    Option (error_code × tape_builder) :=
  match numberparsing_parse_number x s value with
  | none => some (error_code.NUMBER_ERROR, s)
  | some s1 => some (error_code.SUCCESS, s1)

/-- C `memcpy(dst, src, n)` into a buffer: the first `n` bytes of the buffer become the
first `n` bytes at `src` (0 where the modelled input has ended). -/
def memcpy (dst : Nat → byte) (src : List byte) (n : Nat) : Nat → byte :=
  fun i => if i < n then src.getD i 0 else dst i

/-- C `memset(dst + off, c, n)` on a buffer. -/
def memset (dst : Nat → byte) (off : Nat) (c : byte) (n : Nat) : Nat → byte :=
  fun i => if off ≤ i ∧ i < off + n then c else dst i

/-- Source `parse_root_number(iter, value)`: `malloc`, `memcpy` of `remaining_len()` bytes,
`memset` of `SIMDJSON_PADDING` spaces after them, then `parse_number` on the copy, whose
bytes are the `remaining_len() + SIMDJSON_PADDING` bytes of the allocation (all of them
written; `free` has no effect on the state). -/
def parse_root_number (x : externals) (s : tape_builder) (iter : json_iterator)
    (value : List byte) : Option (error_code × tape_builder) :=
  if x.malloc (iter.remaining_len + x.SIMDJSON_PADDING) = false then
    some (error_code.MEMALLOC, s)
  else
    let copy0 : Nat → byte := fun _ => 0
    let copy1 := memcpy copy0 value iter.remaining_len
    let copy2 := memset copy1 iter.remaining_len 32 x.SIMDJSON_PADDING
    parse_number x s ((List.range (iter.remaining_len + x.SIMDJSON_PADDING)).map copy2)

/-- Source `parse_true_atom`. -/
def parse_true_atom (x : externals) (s : tape_builder) (value : List byte) :
    Option (error_code × tape_builder) :=
  if x.is_valid_true_atom value = false then some (error_code.T_ATOM_ERROR, s)
  else some (error_code.SUCCESS, tape_writer.append x s 0 tape_type.TRUE_VALUE)

/-- Source `parse_root_true_atom`. -/
def parse_root_true_atom (x : externals) (s : tape_builder) (iter : json_iterator)
    (value : List byte) : Option (error_code × tape_builder) :=
  if x.is_valid_true_atom_len value iter.remaining_len = false then
    some (error_code.T_ATOM_ERROR, s)
  else some (error_code.SUCCESS, tape_writer.append x s 0 tape_type.TRUE_VALUE)

/-- Source `parse_false_atom`. -/
def parse_false_atom (x : externals) (s : tape_builder) (value : List byte) :
    Option (error_code × tape_builder) :=
  if x.is_valid_false_atom value = false then some (error_code.F_ATOM_ERROR, s)
  else some (error_code.SUCCESS, tape_writer.append x s 0 tape_type.FALSE_VALUE)

/-- Source `parse_root_false_atom`. -/
def parse_root_false_atom (x : externals) (s : tape_builder) (iter : json_iterator)
    (value : List byte) : Option (error_code × tape_builder) :=
  if x.is_valid_false_atom_len value iter.remaining_len = false then
    some (error_code.F_ATOM_ERROR, s)
  else some (error_code.SUCCESS, tape_writer.append x s 0 tape_type.FALSE_VALUE)

/-- Source `parse_null_atom`. -/
def parse_null_atom (x : externals) (s : tape_builder) (value : List byte) :
    Option (error_code × tape_builder) :=
  if x.is_valid_null_atom value = false then some (error_code.N_ATOM_ERROR, s)
  else some (error_code.SUCCESS, tape_writer.append x s 0 tape_type.NULL_VALUE)

/-- Source `parse_root_null_atom`. -/
def parse_root_null_atom (x : externals) (s : tape_builder) (iter : json_iterator)
    (value : List byte) : Option (error_code × tape_builder) :=
  if x.is_valid_null_atom_len value iter.remaining_len = false then
    some (error_code.N_ATOM_ERROR, s)
  else some (error_code.SUCCESS, tape_writer.append x s 0 tape_type.NULL_VALUE)

/-- The leading byte is `-` or a decimal digit. -/
def is_number_start (c : byte) : Bool :=
  c.val = 45 || (48 ≤ c.val && c.val ≤ 57)

/-- Source `root_primitive(iter, value)`; `value` is the input from the pointer on, and
reading `*value` of an exhausted input is `none`. -/
def root_primitive (x : externals) (s : tape_builder) (iter : json_iterator)
    (value : List byte) : Option (error_code × tape_builder) :=
  match value with
  | [] => none
  | c :: _ =>
    if c.val = 34 then parse_string x s value false
    else if c.val = 116 then parse_root_true_atom x s iter value
    else if c.val = 102 then parse_root_false_atom x s iter value
    else if c.val = 110 then parse_root_null_atom x s iter value
    else if is_number_start c then parse_root_number x s iter value
    else some (error_code.TAPE_ERROR, s)

/-- Source `primitive(iter, value)`. -/
def primitive (x : externals) (s : tape_builder) (value : List byte) :
    Option (error_code × tape_builder) :=
  match value with
  | [] => none
  | c :: _ =>
    if c.val = 34 then parse_string x s value false
    else if c.val = 116 then parse_true_atom x s value
    else if c.val = 102 then parse_false_atom x s value
    else if c.val = 110 then parse_null_atom x s value
    else if is_number_start c then parse_number x s value
    else some (error_code.TAPE_ERROR, s)

/-- Source `empty_object`. -/
def empty_object (x : externals) (s : tape_builder) : Option (error_code × tape_builder) :=
  empty_container x s tape_type.START_OBJECT tape_type.END_OBJECT

/-- Source `empty_array`. -/
def empty_array (x : externals) (s : tape_builder) : Option (error_code × tape_builder) :=
  empty_container x s tape_type.START_ARRAY tape_type.END_ARRAY

/-- Source `start_document`. -/
def start_document (x : externals) (s : tape_builder) : Option (error_code × tape_builder) :=
  match start_container x s with
  | none => none
  | some s1 =>
    match set_is_array x s1 false with
    | none => none
    | some s2 => some (error_code.SUCCESS, s2)

/-- The body shared by `start_object` and `start_array`: `depth++` on a `uint32_t`, the
depth check, `start_container`, and the flag write. -/
def start_scope (x : externals) (s : tape_builder) (arr : Bool) :
    Option (error_code × tape_builder) :=
  let s0 := { s with depth := (s.depth + 1) % 2 ^ 32 }
  if s0.depth ≥ x.max_depth then some (error_code.DEPTH_ERROR, s0)
  else
    match start_container x s0 with
    | none => none
    | some s1 =>
      match set_is_array x s1 arr with
      | none => none
      | some s2 => some (error_code.SUCCESS, s2)

/-- Source `start_object`. -/
def start_object (x : externals) (s : tape_builder) : Option (error_code × tape_builder) :=
  start_scope x s false

/-- Source `start_array`. -/
def start_array (x : externals) (s : tape_builder) : Option (error_code × tape_builder) :=
  start_scope x s true

/-- Source `end_object`. -/
def end_object (x : externals) (s : tape_builder) : Option (error_code × tape_builder) :=
  end_container x s tape_type.START_OBJECT tape_type.END_OBJECT

/-- Source `end_array`. -/
def end_array (x : externals) (s : tape_builder) : Option (error_code × tape_builder) :=
  end_container x s tape_type.START_ARRAY tape_type.END_ARRAY

/-- Source `end_document`. -/
def end_document (x : externals) (s : tape_builder) (iter : json_iterator) :
    Option (error_code × tape_builder) :=
  let start_tape_index := 0
  let s1 := tape_writer.append x s start_tape_index tape_type.ROOT
  let s2 := tape_writer.write x s1 start_tape_index (next_tape_index s1) tape_type.ROOT
  let s3 := { s2 with next_structural_index := iter.next_structural % 2 ^ 32 }
  if s3.depth ≠ 0 then some (error_code.TAPE_ERROR, s3)
  else some (error_code.SUCCESS, s3)

/-- Source `key`. -/
def key (x : externals) (s : tape_builder) (value : List byte) :
    Option (error_code × tape_builder) :=
  parse_string x s value true

/-- Source `increment_count`: `open_containers[depth].count++` on a `uint32_t`. -/
def increment_count (x : externals) (s : tape_builder) : Option (error_code × tape_builder) :=
  if s.depth < x.max_depth then
    let oc := Function.update s.open_containers s.depth
      (open_container.mk (s.open_containers s.depth).tape_index
        (((s.open_containers s.depth).count + 1) % 2 ^ 32))
    some (error_code.SUCCESS, { s with open_containers := oc })
  else none

/-- Source `next_array_element`. -/
def next_array_element (x : externals) (s : tape_builder) :
    Option (error_code × tape_builder) :=
  increment_count x s

/-- Source `next_field`. -/
def next_field (x : externals) (s : tape_builder) : Option (error_code × tape_builder) :=
  increment_count x s

/-- Source `end_container(iter)`, the one-argument overload called after `end_object` and
`end_array`: `depth--` on a `uint32_t`. -/
def end_container_iter (s : tape_builder) : tape_builder :=
  { s with depth := (s.depth + 2 ^ 32 - 1) % 2 ^ 32 }

/-- Source `in_container`. -/
def in_container (s : tape_builder) : Bool := s.depth != 0

/-- Source `in_array`. -/
def in_array (x : externals) (s : tape_builder) : Option Bool :=
  if s.depth < x.max_depth then some (s.is_array s.depth) else none

/-- Source `in_object`. -/
def in_object (x : externals) (s : tape_builder) : Option Bool :=
  if s.depth < x.max_depth then some (!s.is_array s.depth) else none

end tape_builder

/-- The calls of the driver-to-builder protocol, one constructor per public method of the
builder; `end_container` is the one-argument overload that pops a level. -/
inductive event where
  | start_document
  | start_object
  | start_array
  | end_object
  | end_array
  | end_container
  | end_document (iter : json_iterator)
  | key (value : List byte)
  | primitive (value : List byte)
  | root_primitive (iter : json_iterator) (value : List byte)
  | next_array_element
  | next_field
  | empty_object
  | empty_array

/-- One call of the driver on the builder. -/
def step (x : externals) (s : tape_builder) : event → Option (error_code × tape_builder)
  | event.start_document => s.start_document x
  | event.start_object => s.start_object x
  | event.start_array => s.start_array x
  | event.end_object => s.end_object x
  | event.end_array => s.end_array x
  | event.end_container => some (error_code.SUCCESS, s.end_container_iter)
  | event.end_document iter => s.end_document x iter
  | event.key value => s.key x value
  | event.primitive value => s.primitive x value
  | event.root_primitive iter value => s.root_primitive x iter value
  | event.next_array_element => s.next_array_element x
  | event.next_field => s.next_field x
  | event.empty_object => s.empty_object x
  | event.empty_array => s.empty_array x

/-- A sequence of calls; the driver stops at the first result that is not `SUCCESS`. -/
def run (x : externals) : List event → tape_builder → Option (error_code × tape_builder)
  | [], s => some (error_code.SUCCESS, s)
  | e :: es, s =>
    match step x s e with
    | none => none
    | some (error_code.SUCCESS, s1) => run x es s1
    | some (err, s1) => some (err, s1)

/-- The opening call of a container of the given kind. -/
def open_event (arr : Bool) : event :=
  if arr then event.start_array else event.start_object

/-- The closing call of a container of the given kind. -/
def close_event (arr : Bool) : event :=
  if arr then event.end_array else event.end_object

/-- The separator calls, which count one more child of the innermost open container. -/
def event.is_separator : event → Bool
  | event.next_array_element => true
  | event.next_field => true
  | _ => false

/-- The calls for a key, for a scalar value and for a two-slot empty container. -/
def event.is_value : event → Bool
  | event.key _ => true
  | event.primitive _ => true
  | event.empty_object => true
  | event.empty_array => true
  | _ => false

/-- Well-nested call sequences, as the driver makes them between the opening and the
closing call of a container: separators, keys, values, and child containers that are
opened, filled with a well-nested sequence, closed and popped. The index counts the
separators that are not inside a child container. -/
inductive well_nested : Nat → List event → Prop where
  | nil : well_nested 0 []
  | separator (e : event) (rest : List event) (k : Nat) : e.is_separator = true →
      well_nested k rest → well_nested (k + 1) (e :: rest)
  | value (e : event) (rest : List event) (k : Nat) : e.is_value = true →
      well_nested k rest → well_nested k (e :: rest)
  | container (arr : Bool) (body rest : List event) (j k : Nat) : well_nested j body →
      well_nested k rest →
      well_nested k
        (open_event arr :: (body ++ close_event arr :: event.end_container :: rest))

/-- Modelled from the spec: the 4-byte little-endian length field of the string record
at offset `off`. -/
def read_u32 (buf : Nat → byte) (off : Nat) : Nat :=
  (buf off).val + (buf (off + 1)).val * 2 ^ 8 + (buf (off + 2)).val * 2 ^ 16 +
    (buf (off + 3)).val * 2 ^ 24

/-- Modelled from the spec: the content of the string record at offset `off`, read as the
length field followed by that many bytes; the terminator is not consulted. -/
def read_record (buf : Nat → byte) (off : Nat) : List byte :=
  (List.range (read_u32 buf off)).map (fun i => buf (off + 4 + i))

/-- Sample collaborators with a given depth limit: tags are the ASCII letters of the
simdjson tape format, the string decoder copies the bytes between the quotes (no escapes),
the number decoder accepts a run of digits that ends the input or is followed by a
space, comma or closing bracket, and appends two words, literals are compared
with their spelling, allocation succeeds. -/
def sample_externals (max_depth : Nat) : externals where
  max_depth := max_depth
  tag := fun t =>
    match t with
    | tape_type.ROOT => 114
    | tape_type.START_OBJECT => 123
    | tape_type.END_OBJECT => 125
    | tape_type.START_ARRAY => 91
    | tape_type.END_ARRAY => 93
    | tape_type.STRING => 34
    | tape_type.TRUE_VALUE => 116
    | tape_type.FALSE_VALUE => 102
    | tape_type.NULL_VALUE => 110
  SIMDJSON_PADDING := 32
  parse_string := fun v =>
    match v with
    | [] => none
    | _ :: rest =>
      if rest.contains 34 then some (rest.takeWhile (fun c => c != 34)) else none
  parse_number := fun v =>
    let ds := v.takeWhile (fun c => 48 ≤ c.val && c.val ≤ 57)
    if ds = [] then none
    else
      match (v.drop ds.length).head? with
      | none => some [108 * 2 ^ 56, ds.foldl (fun acc c => acc * 10 + (c.val - 48)) 0]
      | some c =>
        if c.val = 32 ∨ c.val = 44 ∨ c.val = 93 ∨ c.val = 125 then
          some [108 * 2 ^ 56, ds.foldl (fun acc c => acc * 10 + (c.val - 48)) 0]
        else none
  is_valid_true_atom := fun v => v.take 4 == [116, 114, 117, 101]
  is_valid_true_atom_len := fun v n => decide (4 ≤ n) && v.take 4 == [116, 114, 117, 101]
  is_valid_false_atom := fun v => v.take 5 == [102, 97, 108, 115, 101]
  is_valid_false_atom_len := fun v n => decide (5 ≤ n) && v.take 5 == [102, 97, 108, 115, 101]
  is_valid_null_atom := fun v => v.take 4 == [110, 117, 108, 108]
  is_valid_null_atom_len := fun v n => decide (4 ≤ n) && v.take 4 == [110, 117, 108, 108]
  malloc := fun _ => true

/-- Sample memory: everything zero. -/
def sample_memory : tape_builder where
  open_containers := fun _ => open_container.mk 0 0
  is_array := fun _ => false
  next_structural_index := 0
  doc_tape := fun _ => 0
  doc_string_buf := fun _ => 0
  next_tape_loc := 0
  current_string_buf_loc := 0
  depth := 0

open error_code tape_type

/-- The state `start_object` and `start_array` leave on success. -/
def opened (s : tape_builder) (arr : Bool) : tape_builder :=
  { s with
    depth := (s.depth + 1) % 2 ^ 32,
    open_containers := Function.update s.open_containers ((s.depth + 1) % 2 ^ 32)
      (open_container.mk (s.next_tape_loc % 2 ^ 32) 1),
    next_tape_loc := s.next_tape_loc + 1,
    is_array := Function.update s.is_array ((s.depth + 1) % 2 ^ 32) arr }

/-- The calls the driver makes for the truncated input `{"a":[1,2`; each value is the
input from its first byte on. -/
def truncated_events (iter : json_iterator) : List event :=
  [event.start_document, event.start_object,
   event.key [34, 97, 34, 58, 91, 49, 44, 50],
   event.start_array,
   event.primitive [49, 44, 50],
   event.next_array_element,
   event.primitive [50],
   event.end_document iter]

/-- The start tag of a container kind. -/
def start_tag (arr : Bool) : tape_type := if arr then START_ARRAY else START_OBJECT

/-- The end tag of a container kind. -/
def end_tag (arr : Bool) : tape_type := if arr then END_ARRAY else END_OBJECT

/-- The state `end_document` leaves, whatever its result. -/
def document_closed (x : externals) (s : tape_builder) (iter : json_iterator) : tape_builder :=
  { s with
    doc_tape := Function.update (Function.update s.doc_tape s.next_tape_loc (tape_word x 0 ROOT))
      0 (tape_word x ((s.next_tape_loc + 1) % 2 ^ 32) ROOT),
    next_tape_loc := s.next_tape_loc + 1,
    next_structural_index := iter.next_structural % 2 ^ 32 }

/-- The state `empty_container` leaves. -/
def emptied (x : externals) (s : tape_builder) (start end_ : tape_type) : tape_builder :=
  { s with
    doc_tape := Function.update
      (Function.update s.doc_tape s.next_tape_loc
        (tape_word x ((s.next_tape_loc % 2 ^ 32 + 2) % 2 ^ 32) start))
      (s.next_tape_loc + 1) (tape_word x (s.next_tape_loc % 2 ^ 32) end_),
    next_tape_loc := s.next_tape_loc + 2 }

/-- The string buffer after a successful `parse_string` that decoded `b`: the content from
`cur + 4` on, then the length field at `cur`, then the terminator. -/
def record_written (buf : Nat → byte) (cur : Nat) (b : List byte) : Nat → byte :=
  Function.update
    (tape_builder.store_bytes (tape_builder.store_bytes buf (cur + 4) b) cur
      (tape_builder.u32_bytes (b.length % 2 ^ 32)))
    (cur + 4 + b.length) 0

/-- The state a successful `parse_string` that decoded `b` leaves. -/
def string_parsed (x : externals) (s : tape_builder) (b : List byte) : tape_builder :=
  { s with
    doc_tape := Function.update s.doc_tape s.next_tape_loc
      (tape_word x s.current_string_buf_loc STRING),
    next_tape_loc := s.next_tape_loc + 1,
    doc_string_buf := record_written s.doc_string_buf s.current_string_buf_loc b,
    current_string_buf_loc := s.current_string_buf_loc + 4 + b.length + 1 }

/-- The call leaves the string buffer and its cursor as they were. -/
def same_strings (s s' : tape_builder) : Prop :=
  s'.doc_string_buf = s.doc_string_buf ∧
  s'.current_string_buf_loc = s.current_string_buf_loc

/-- The call leaves the depth, the open-container array and the flags as they were. -/
def same_scopes (s s' : tape_builder) : Prop :=
  s'.depth = s.depth ∧ s'.open_containers = s.open_containers ∧ s'.is_array = s.is_array

/-- The input of the string decoder when the call is a string parse: every `key`, and
`primitive` or `root_primitive` on a leading `"`. -/
def event.string_value : event → Option (List byte)
  | event.key value => some value
  | event.primitive (c :: rest) => if c.val = 34 then some (c :: rest) else none
  | event.root_primitive _ (c :: rest) => if c.val = 34 then some (c :: rest) else none
  | _ => none

/-- The size of the string record a call writes when it succeeds: the decoded length plus
four bytes of length field and one terminator; 0 for calls that parse no string. -/
def record_size (x : externals) (e : event) : Nat :=
  match e.string_value with
  | none => 0
  | some value =>
    match x.parse_string value with
    | none => 0
    | some b => b.length + 5

/-- The total size of the string records of a call sequence. -/
def record_sizes (x : externals) (es : List event) : Nat :=
  (es.map (record_size x)).sum

/-- Sample calls: the start of the document `{"a":"bc","d":[]}` up to the first key. -/
def sample_calls_before : List event :=
  [event.start_document, event.start_object, event.key [34, 97, 34, 58, 34, 98, 99, 34]]

/-- Sample calls: the rest of the document `{"a":"bc","d":[]}` after its first value. -/
def sample_calls_after : List event :=
  [event.next_field, event.key [34, 100, 34, 58, 91, 93, 125], event.empty_array,
   event.end_object, event.end_container, event.end_document ⟨0, 17⟩]

/-- The saturated count `end_container` stores. -/
def cntsat (count : Nat) : Nat := if count > 0xFFFFFF then 0xFFFFFF else count

/-- The state `end_container(iter, start, end)` leaves when the depth is in bounds. -/
def closed (x : externals) (s : tape_builder) (start end_ : tape_type) : tape_builder :=
  { s with
    doc_tape := Function.update
      (Function.update s.doc_tape s.next_tape_loc
        (tape_word x (s.open_containers s.depth).tape_index end_))
      (s.open_containers s.depth).tape_index
      (tape_word x
        (((s.next_tape_loc + 1) % 2 ^ 32) ||| (cntsat (s.open_containers s.depth).count <<< 32))
        start),
    next_tape_loc := s.next_tape_loc + 1 }

/-- One more child, on a `uint32_t`. -/
def count_succ (c : Nat) : Nat := (c + 1) % 2 ^ 32

/-- The state `increment_count` leaves when the depth is in bounds. -/
def counted (s : tape_builder) : tape_builder :=
  { s with
    open_containers := Function.update s.open_containers s.depth
      (open_container.mk (s.open_containers s.depth).tape_index
        (count_succ (s.open_containers s.depth).count)) }

/-- The call leaves every tape slot below the old tape cursor as it was. -/
def tape_kept (s s' : tape_builder) : Prop :=
  ∀ i, i < s.next_tape_loc → s'.doc_tape i = s.doc_tape i

/-- The slot a call overwrites besides appending at the cursor: the recorded start slot
for `end_object` and `end_array`, slot 0 for `end_document`, none for the other calls. -/
def backpatch_slot (s : tape_builder) : event → Option Nat
  | event.end_object => some (s.open_containers s.depth).tape_index
  | event.end_array => some (s.open_containers s.depth).tape_index
  | event.end_document _ => some 0
  | _ => none

/-- The call is the one-argument `end_container`, which decrements the depth. -/
def event.is_pop : event → Bool
  | event.end_container => true
  | _ => false

/-- A call sequence in which every call returns `SUCCESS` and the one-argument
`end_container` is only called at depth 1 or more. -/
def guarded (x : externals) : List event → tape_builder → Bool
  | [], _ => true
  | e :: es, s =>
    (!e.is_pop || decide (1 ≤ s.depth)) &&
      (match step x s e with
       | some (error_code.SUCCESS, s1) => guarded x es s1
       | _ => false)

/-- The buffer the spec describes for a standalone root number: the `remaining_len` bytes
of the remaining input followed by `SIMDJSON_PADDING` space characters. -/
def spec_padded_copy (x : externals) (iter : json_iterator) (value : List byte) : List byte :=
  value.take iter.remaining_len ++ List.replicate x.SIMDJSON_PADDING (32 : byte)

/-- The calls of the driver for the root document `123`. -/
def root_123_events (iter : json_iterator) : List event :=
  [event.start_document, event.root_primitive ⟨3, iter.next_structural⟩ [49, 50, 51],
   event.end_document iter]

/-- The calls of the driver for the root document `12x`, up to its value. -/
def root_12x_events (iter : json_iterator) : List event :=
  [event.start_document, event.root_primitive ⟨3, iter.next_structural⟩ [49, 50, 120]]

/-! ## Arithmetic of tape words -/

theorem lor_shiftLeft_of_lt (lo hi k : Nat) (h : lo < 2 ^ k) :
    lo ||| (hi <<< k) = lo + hi * 2 ^ k := by
  rw [Nat.shiftLeft_eq, Nat.or_comm, Nat.mul_comm hi, ← Nat.mul_add_lt_is_or h, Nat.add_comm]

theorem lor_shiftLeft_mod (v t k : Nat) : (v ||| (t <<< k)) % 2 ^ k = v % 2 ^ k := by
  apply Nat.eq_of_testBit_eq
  intro i
  simp only [Nat.testBit_mod_two_pow, Nat.testBit_or, Nat.testBit_shiftLeft]
  by_cases h : i < k
  · have : ¬ (i ≥ k) := by omega
    simp [h, this]
  · simp [h]

theorem tape_payload_word (x : externals) (val : Nat) (t : tape_type) :
    tape_payload (tape_word x val t) = val % 2 ^ 56 := by
  unfold tape_payload tape_word
  rw [lor_shiftLeft_mod]
  omega

theorem tape_tag_word (x : externals) (val : Nat) (t : tape_type) (h : val < 2 ^ 56) :
    tape_tag (tape_word x val t) = (x.tag t).val := by
  unfold tape_tag tape_word
  have h1 : val % 2 ^ 64 = val := Nat.mod_eq_of_lt (by omega)
  rw [h1, lor_shiftLeft_of_lt _ _ _ h]
  omega

/-! ## Opening a container -/


theorem start_scope_fail (x : externals) (s : tape_builder) (arr : Bool)
    (h : (s.depth + 1) % 2 ^ 32 ≥ x.max_depth) :
    s.start_scope x arr = some (DEPTH_ERROR, { s with depth := (s.depth + 1) % 2 ^ 32 }) := by
  unfold tape_builder.start_scope
  simp only [if_pos h]

theorem start_scope_ok (x : externals) (s : tape_builder) (arr : Bool)
    (h : (s.depth + 1) % 2 ^ 32 < x.max_depth) :
    s.start_scope x arr = some (SUCCESS, opened s arr) := by
  have h' : ¬ ((s.depth + 1) % 2 ^ 32 ≥ x.max_depth) := by omega
  unfold tape_builder.start_scope tape_builder.start_container tape_builder.set_is_array
  simp only [if_neg h', if_pos h, tape_writer.skip, tape_builder.next_tape_index]
  rfl

/-- C3. For a builder at depth `d` (with `d + 1` and the tape cursor representable in 32
bits) and depth limit `M`, `start_object` and `start_array` return `DEPTH_ERROR` exactly
when `d + 1 ≥ M`; on failure the tape, the tape cursor, the string buffer and its cursor,
the open-container array and the flags are unchanged; on success the result is `SUCCESS`,
the record at depth `d + 1` is the old tape cursor with count 1, the tape cursor has
advanced by one slot and the flag at depth `d + 1` is `true` for arrays, `false` for
objects. -/
theorem start_object_start_array_spec (x : externals) (s : tape_builder) (arr : Bool)
    (hd : s.depth + 1 < 2 ^ 32) (ht : s.next_tape_loc < 2 ^ 32) :
    ∃ e s', (if arr then s.start_array x else s.start_object x) = some (e, s') ∧
      (e = DEPTH_ERROR ↔ s.depth + 1 ≥ x.max_depth) ∧
      (e = DEPTH_ERROR →
        s'.doc_tape = s.doc_tape ∧ s'.next_tape_loc = s.next_tape_loc ∧
        s'.doc_string_buf = s.doc_string_buf ∧
        s'.current_string_buf_loc = s.current_string_buf_loc ∧
        s'.open_containers = s.open_containers ∧ s'.is_array = s.is_array) ∧
      (e ≠ DEPTH_ERROR →
        e = SUCCESS ∧ s'.depth = s.depth + 1 ∧
        s'.open_containers (s.depth + 1) = open_container.mk s.next_tape_loc 1 ∧
        s'.next_tape_loc = s.next_tape_loc + 1 ∧
        s'.is_array (s.depth + 1) = arr) := by
  have hmod : (s.depth + 1) % 2 ^ 32 = s.depth + 1 := Nat.mod_eq_of_lt hd
  have hidx : s.next_tape_loc % 2 ^ 32 = s.next_tape_loc := Nat.mod_eq_of_lt ht
  have hcall : (if arr then s.start_array x else s.start_object x) = s.start_scope x arr := by
    cases arr <;> rfl
  rw [hcall]
  by_cases hM : s.depth + 1 ≥ x.max_depth
  · refine ⟨DEPTH_ERROR, _, start_scope_fail x s arr (by omega), ?_, ?_, ?_⟩
    · simp [hM]
    · intro _; exact ⟨rfl, rfl, rfl, rfl, rfl, rfl⟩
    · intro h; exact absurd rfl h
  · refine ⟨SUCCESS, _, start_scope_ok x s arr (by omega), ?_, ?_, ?_⟩
    · simp [hM]
    · intro h; cases h
    · intro _
      refine ⟨rfl, hmod, ?_, rfl, ?_⟩
      · simp only [opened, hmod, hidx, Function.update_same]
      · simp only [opened, hmod, Function.update_same]

/-- C3, instance: with depth limit 4, `start_array` on a builder at depth 0 with the tape
cursor at 0. -/
theorem start_object_start_array_spec_witness :
    (sample_memory.depth + 1 < 2 ^ 32 ∧ sample_memory.next_tape_loc < 2 ^ 32) ∧
    ∃ e s', (if true then sample_memory.start_array (sample_externals 4)
        else sample_memory.start_object (sample_externals 4)) = some (e, s') ∧
      (e = DEPTH_ERROR ↔ sample_memory.depth + 1 ≥ (sample_externals 4).max_depth) ∧
      (e = DEPTH_ERROR →
        s'.doc_tape = sample_memory.doc_tape ∧ s'.next_tape_loc = sample_memory.next_tape_loc ∧
        s'.doc_string_buf = sample_memory.doc_string_buf ∧
        s'.current_string_buf_loc = sample_memory.current_string_buf_loc ∧
        s'.open_containers = sample_memory.open_containers ∧
        s'.is_array = sample_memory.is_array) ∧
      (e ≠ DEPTH_ERROR →
        e = SUCCESS ∧ s'.depth = sample_memory.depth + 1 ∧
        s'.open_containers (sample_memory.depth + 1) =
          open_container.mk sample_memory.next_tape_loc 1 ∧
        s'.next_tape_loc = sample_memory.next_tape_loc + 1 ∧
        s'.is_array (sample_memory.depth + 1) = true) :=
  ⟨⟨by decide, by decide⟩,
   start_object_start_array_spec (sample_externals 4) sample_memory true (by decide)
     (by decide)⟩

/-! ## Closing the document -/

theorem run_cons_success (x : externals) (e : event) (es : List event) (s s1 : tape_builder)
    (h : step x s e = some (SUCCESS, s1)) : run x (e :: es) s = run x es s1 := by
  simp only [run, h]

theorem parse_string_ok (x : externals) (s : tape_builder) (value decoded : List byte)
    (k : Bool) (h : x.parse_string value = some decoded) :
    ∃ s', s.parse_string x value k = some (SUCCESS, s') ∧ s'.depth = s.depth ∧
      s'.open_containers = s.open_containers ∧ s'.is_array = s.is_array := by
  unfold tape_builder.parse_string tape_builder.stringparsing_parse_string
  simp only [h, tape_builder.on_start_string]
  exact ⟨_, rfl, rfl, rfl, rfl⟩

theorem append_words_frame (ws : List Nat) (s : tape_builder) :
    (tape_builder.append_words s ws).depth = s.depth ∧
    (tape_builder.append_words s ws).open_containers = s.open_containers ∧
    (tape_builder.append_words s ws).is_array = s.is_array ∧
    (tape_builder.append_words s ws).doc_string_buf = s.doc_string_buf ∧
    (tape_builder.append_words s ws).current_string_buf_loc = s.current_string_buf_loc ∧
    (tape_builder.append_words s ws).next_tape_loc = s.next_tape_loc + ws.length := by
  induction ws generalizing s with
  | nil => exact ⟨rfl, rfl, rfl, rfl, rfl, rfl⟩
  | cons w ws ih =>
    obtain ⟨h1, h2, h3, h4, h5, h6⟩ := ih
      { s with doc_tape := Function.update s.doc_tape s.next_tape_loc (w % 2 ^ 64),
               next_tape_loc := s.next_tape_loc + 1 }
    refine ⟨h1, h2, h3, h4, h5, ?_⟩
    simp only [tape_builder.append_words, h6, List.length_cons]
    omega


theorem start_document_ok (x : externals) (s : tape_builder) (h : s.depth < x.max_depth) :
    ∃ s', s.start_document x = some (SUCCESS, s') ∧ s'.depth = s.depth ∧
      s'.next_tape_loc = s.next_tape_loc + 1 ∧
      s'.current_string_buf_loc = s.current_string_buf_loc := by
  unfold tape_builder.start_document tape_builder.start_container tape_builder.set_is_array
  simp only [if_pos h, tape_writer.skip]
  exact ⟨_, rfl, rfl, rfl, rfl⟩

theorem parse_number_ok (x : externals) (s : tape_builder) (value : List byte) (ws : List Nat)
    (h : x.parse_number value = some ws) :
    s.parse_number x value = some (SUCCESS, tape_builder.append_words s ws) := by
  unfold tape_builder.parse_number tape_builder.numberparsing_parse_number
  simp only [h]

theorem primitive_number (x : externals) (s : tape_builder) (c : byte) (rest : List byte)
    (h : tape_builder.is_number_start c = true) :
    s.primitive x (c :: rest) = s.parse_number x (c :: rest) := by
  unfold tape_builder.is_number_start at h
  simp only [Bool.or_eq_true, Bool.and_eq_true, decide_eq_true_eq] at h
  have h1 : ¬ c.val = 34 := by omega
  have h2 : ¬ c.val = 116 := by omega
  have h3 : ¬ c.val = 102 := by omega
  have h4 : ¬ c.val = 110 := by omega
  have h5 : tape_builder.is_number_start c = true := by
    unfold tape_builder.is_number_start
    simp only [Bool.or_eq_true, Bool.and_eq_true, decide_eq_true_eq]
    exact h
  simp only [tape_builder.primitive, if_neg h1, if_neg h2, if_neg h3, if_neg h4, if_pos h5]

theorem increment_count_ok (x : externals) (s : tape_builder) (h : s.depth < x.max_depth) :
    ∃ s', s.increment_count x = some (SUCCESS, s') ∧ s'.depth = s.depth := by
  unfold tape_builder.increment_count
  simp only [if_pos h]
  exact ⟨_, rfl, rfl⟩

theorem end_document_code (x : externals) (s : tape_builder) (iter : json_iterator) :
    ∃ s', s.end_document x iter = some (if s.depth = 0 then SUCCESS else TAPE_ERROR, s') ∧
      s'.depth = s.depth := by
  unfold tape_builder.end_document
  by_cases h : s.depth = 0
  · simp [h, tape_writer.append, tape_writer.write]
  · simp [h, tape_writer.append, tape_writer.write]

theorem run_last_error (x : externals) (e : event) (s s1 : tape_builder) (err : error_code)
    (h : step x s e = some (err, s1)) : run x [e] s = some (err, s1) := by
  cases err <;> simp only [run, h]

/-- C5. `end_document` returns `SUCCESS` when the depth is 0 and `TAPE_ERROR`, the code
for unclosed objects or arrays, at every other depth. For the truncated input
`{"a":[1,2`, whenever the depth limit is above 2 and the decoders accept the key and the
two numbers, the calls of the driver end at depth 2 with that error. -/
theorem end_document_result (x : externals) (s : tape_builder) (iter : json_iterator) :
    (s.end_document x iter).map Prod.fst =
        some (if s.depth = 0 then SUCCESS else TAPE_ERROR) ∧
    (2 < x.max_depth →
      x.parse_string [34, 97, 34, 58, 91, 49, 44, 50] ≠ none →
      x.parse_number [49, 44, 50] ≠ none →
      x.parse_number [50] ≠ none →
      (run x (truncated_events iter) s.init).map (fun r => (r.1, r.2.depth)) =
        some (TAPE_ERROR, 2)) := by
  constructor
  · obtain ⟨s', h, _⟩ := end_document_code x s iter
    rw [h]
    rfl
  · intro hM hk h1 h2
    obtain ⟨kb, hk⟩ := Option.ne_none_iff_exists'.mp hk
    obtain ⟨w1, h1⟩ := Option.ne_none_iff_exists'.mp h1
    obtain ⟨w2, h2⟩ := Option.ne_none_iff_exists'.mp h2
    have d0 : s.init.depth = 0 := rfl
    obtain ⟨s1, e1, d1, -⟩ := start_document_ok x s.init (by omega)
    have d2 : (opened s1 false).depth = 1 := by
      show (s1.depth + 1) % 2 ^ 32 = 1
      rw [d1, d0]; rfl
    have e2 : step x s1 event.start_object = some (SUCCESS, opened s1 false) :=
      start_scope_ok x s1 false (by omega)
    obtain ⟨s3, e3, d3, -⟩ := parse_string_ok x (opened s1 false)
      [34, 97, 34, 58, 91, 49, 44, 50] kb true hk
    have d4 : (opened s3 true).depth = 2 := by
      show (s3.depth + 1) % 2 ^ 32 = 2
      rw [d3, d2]; rfl
    have e4 : step x s3 event.start_array = some (SUCCESS, opened s3 true) :=
      start_scope_ok x s3 true (by omega)
    have e5 : step x (opened s3 true) (event.primitive [49, 44, 50]) =
        some (SUCCESS, tape_builder.append_words (opened s3 true) w1) := by
      show (opened s3 true).primitive x [49, 44, 50] = _
      rw [primitive_number x _ _ _ (by decide)]
      exact parse_number_ok x _ _ w1 h1
    have d5 := (append_words_frame w1 (opened s3 true)).1
    obtain ⟨s6, e6, d6⟩ := increment_count_ok x (tape_builder.append_words (opened s3 true) w1)
      (by omega)
    have e7 : step x s6 (event.primitive [50]) =
        some (SUCCESS, tape_builder.append_words s6 w2) := by
      show s6.primitive x [50] = _
      rw [primitive_number x _ _ _ (by decide)]
      exact parse_number_ok x _ _ w2 h2
    have d7 := (append_words_frame w2 s6).1
    obtain ⟨s8, e8, d8⟩ := end_document_code x (tape_builder.append_words s6 w2) iter
    have hne : ¬ (tape_builder.append_words s6 w2).depth = 0 := by omega
    rw [if_neg hne] at e8
    unfold truncated_events
    rw [run_cons_success x event.start_document _ _ _ e1,
      run_cons_success x event.start_object _ _ _ e2,
      run_cons_success x (event.key _) _ _ _ e3,
      run_cons_success x event.start_array _ _ _ e4,
      run_cons_success x (event.primitive _) _ _ _ e5,
      run_cons_success x event.next_array_element _ _ _ e6,
      run_cons_success x (event.primitive _) _ _ _ e7,
      run_last_error x (event.end_document iter) _ _ _ e8]
    simp only [Option.map_some', d8, d7, d6, d5, d4]

/-- C5, instance: the sample collaborators with depth limit 1024. -/
theorem end_document_result_witness :
    (run (sample_externals 1024) (truncated_events ⟨0, 9⟩) sample_memory.init).map
      (fun r => (r.1, r.2.depth)) = some (TAPE_ERROR, 2) :=
  (end_document_result (sample_externals 1024) sample_memory ⟨0, 9⟩).2 (by decide)
    (by decide) (by decide) (by decide)

theorem end_document_eq (x : externals) (s : tape_builder) (iter : json_iterator) :
    s.end_document x iter =
      some (if s.depth = 0 then SUCCESS else TAPE_ERROR, document_closed x s iter) := by
  unfold tape_builder.end_document
  by_cases h : s.depth = 0
  · simp [h, tape_writer.append, tape_writer.write, document_closed,
      tape_builder.next_tape_index]
  · simp [h, tape_writer.append, tape_writer.write, document_closed,
      tape_builder.next_tape_index]

/-- C6, as stated, fails: with the tape cursor at index 1 (the state right after
`start_document`), `end_document` leaves payload 2 in slot 0, not the cursor 1. -/
theorem end_document_root_payload_counterexample :
    ((tape_builder.end_document (sample_externals 1024)
        { sample_memory with next_tape_loc := 1 } ⟨0, 0⟩).map
      (fun r => (r.1, tape_payload (r.2.doc_tape 0)))) = some (SUCCESS, 2) := by
  decide

/-- C6, amended. For a builder whose tape cursor is at index `c ≥ 1` when `end_document`
is called, afterwards slot `c` holds the terminal ROOT entry with payload 0, slot 0 holds
a ROOT entry whose payload is `(c + 1) mod 2^32`, the index of the slot after the terminal
entry, and the tape cursor is `c + 1`. -/
theorem end_document_root_entries (x : externals) (s : tape_builder) (iter : json_iterator)
    (hc : s.next_tape_loc ≠ 0) :
    ∃ e s', s.end_document x iter = some (e, s') ∧
      tape_payload (s'.doc_tape s.next_tape_loc) = 0 ∧
      tape_tag (s'.doc_tape s.next_tape_loc) = (x.tag ROOT).val ∧
      tape_payload (s'.doc_tape 0) = (s.next_tape_loc + 1) % 2 ^ 32 ∧
      tape_tag (s'.doc_tape 0) = (x.tag ROOT).val ∧
      s'.next_tape_loc = s.next_tape_loc + 1 := by
  have hlt : (s.next_tape_loc + 1) % 2 ^ 32 < 2 ^ 56 := by omega
  refine ⟨_, _, end_document_eq x s iter, ?_⟩
  simp only [document_closed, Function.update_same, Function.update_noteq hc,
    tape_payload_word, tape_tag_word x _ ROOT hlt, tape_tag_word x 0 ROOT (by omega)]
  refine ⟨rfl, trivial, ?_, trivial, trivial⟩
  omega

/-- C6, amended, instance: the tape cursor at index 1. -/
theorem end_document_root_entries_witness :
    ({ sample_memory with next_tape_loc := 1 } : tape_builder).next_tape_loc ≠ 0 ∧
    ∃ e s', tape_builder.end_document (sample_externals 1024)
        { sample_memory with next_tape_loc := 1 } ⟨0, 0⟩ = some (e, s') ∧
      tape_payload (s'.doc_tape 1) = 0 ∧
      tape_tag (s'.doc_tape 1) = ((sample_externals 1024).tag ROOT).val ∧
      tape_payload (s'.doc_tape 0) = (1 + 1) % 2 ^ 32 ∧
      tape_tag (s'.doc_tape 0) = ((sample_externals 1024).tag ROOT).val ∧
      s'.next_tape_loc = 1 + 1 :=
  ⟨by decide,
   end_document_root_entries (sample_externals 1024) { sample_memory with next_tape_loc := 1 }
     ⟨0, 0⟩ (by decide)⟩

/-! ## Empty containers -/

theorem empty_container_eq (x : externals) (s : tape_builder) (start end_ : tape_type) :
    s.empty_container x start end_ = some (SUCCESS, emptied x s start end_) := rfl

theorem empty_call_eq (x : externals) (s : tape_builder) (arr : Bool) :
    (if arr then s.empty_array x else s.empty_object x) =
      some (SUCCESS, emptied x s (start_tag arr) (end_tag arr)) := by
  cases arr <;> rfl

/-- C7. For a builder whose tape cursor is at index `c` (with `c + 2` representable in 32
bits), `empty_object` and `empty_array` succeed, write a start entry (START_OBJECT resp.
START_ARRAY) with payload `c + 2` at slot `c` and an end entry (END_OBJECT resp.
END_ARRAY) with payload `c` at slot `c + 1`, advance the tape cursor by 2, and leave the
depth, the open-container array, the flags, the string buffer and its cursor unchanged. -/
theorem empty_object_empty_array_spec (x : externals) (s : tape_builder) (arr : Bool)
    (hc : s.next_tape_loc + 2 < 2 ^ 32) :
    ∃ s', (if arr then s.empty_array x else s.empty_object x) = some (SUCCESS, s') ∧
      tape_payload (s'.doc_tape s.next_tape_loc) = s.next_tape_loc + 2 ∧
      tape_tag (s'.doc_tape s.next_tape_loc) =
        (x.tag (if arr then START_ARRAY else START_OBJECT)).val ∧
      tape_payload (s'.doc_tape (s.next_tape_loc + 1)) = s.next_tape_loc ∧
      tape_tag (s'.doc_tape (s.next_tape_loc + 1)) =
        (x.tag (if arr then END_ARRAY else END_OBJECT)).val ∧
      s'.next_tape_loc = s.next_tape_loc + 2 ∧
      s'.depth = s.depth ∧ s'.open_containers = s.open_containers ∧
      s'.is_array = s.is_array ∧ s'.doc_string_buf = s.doc_string_buf ∧
      s'.current_string_buf_loc = s.current_string_buf_loc := by
  have h1 : s.next_tape_loc % 2 ^ 32 = s.next_tape_loc := Nat.mod_eq_of_lt (by omega)
  have h2 : (s.next_tape_loc + 2) % 2 ^ 32 = s.next_tape_loc + 2 := Nat.mod_eq_of_lt hc
  have hne : s.next_tape_loc ≠ s.next_tape_loc + 1 := by omega
  refine ⟨_, empty_call_eq x s arr, ?_, ?_, ?_, ?_, rfl, rfl, rfl, rfl, rfl, rfl⟩
  · simp only [emptied, h1, h2, Function.update_same, Function.update_noteq hne,
      tape_payload_word]
    omega
  · simp only [emptied, h1, h2, Function.update_same, Function.update_noteq hne,
      tape_tag_word x (s.next_tape_loc + 2) _ (by omega), start_tag]
  · simp only [emptied, h1, Function.update_same, tape_payload_word]
    omega
  · simp only [emptied, h1, Function.update_same,
      tape_tag_word x s.next_tape_loc _ (by omega), end_tag]

/-- C7, instance: `empty_array` with the tape cursor at index 1. -/
theorem empty_object_empty_array_spec_witness :
    ({ sample_memory with next_tape_loc := 1 } : tape_builder).next_tape_loc + 2 < 2 ^ 32 ∧
    ∃ s', (if true then
          tape_builder.empty_array (sample_externals 8) { sample_memory with next_tape_loc := 1 }
        else
          tape_builder.empty_object (sample_externals 8)
            { sample_memory with next_tape_loc := 1 }) = some (SUCCESS, s') ∧
      tape_payload (s'.doc_tape 1) = 1 + 2 ∧
      tape_tag (s'.doc_tape 1) =
        ((sample_externals 8).tag (if true then START_ARRAY else START_OBJECT)).val ∧
      tape_payload (s'.doc_tape (1 + 1)) = 1 ∧
      tape_tag (s'.doc_tape (1 + 1)) =
        ((sample_externals 8).tag (if true then END_ARRAY else END_OBJECT)).val ∧
      s'.next_tape_loc = 1 + 2 ∧
      s'.depth = sample_memory.depth ∧ s'.open_containers = sample_memory.open_containers ∧
      s'.is_array = sample_memory.is_array ∧
      s'.doc_string_buf = sample_memory.doc_string_buf ∧
      s'.current_string_buf_loc = sample_memory.current_string_buf_loc :=
  ⟨by decide,
   empty_object_empty_array_spec (sample_externals 8) { sample_memory with next_tape_loc := 1 }
     true (by decide)⟩

/-- C8, as stated, fails: with the tape cursor at index 0, the start entry written by
`empty_object` has end-index field 2, not 0 + 1. -/
theorem empty_container_end_index_counterexample :
    ((tape_builder.empty_object (sample_externals 8) sample_memory).map
      (fun r => (r.2.next_tape_loc, tape_index_field (r.2.doc_tape 0)))) = some (2, 2) := by
  decide

/-- C8, amended. For a builder whose tape cursor is at index `c`, `empty_object` and
`empty_array` write exactly two entries, at slots `c` and `c + 1`, and advance the cursor
by 2; the count field of the start entry is 0 and its end-index field is `c + 2` as a
32-bit index, the slot after the end entry. -/
theorem empty_container_fields (x : externals) (s : tape_builder) (arr : Bool) :
    ∃ s' w1 w2, (if arr then s.empty_array x else s.empty_object x) = some (SUCCESS, s') ∧
      s'.next_tape_loc = s.next_tape_loc + 2 ∧
      s'.doc_tape =
        Function.update (Function.update s.doc_tape s.next_tape_loc w1)
          (s.next_tape_loc + 1) w2 ∧
      s'.doc_tape s.next_tape_loc = w1 ∧
      tape_tag w1 = (x.tag (if arr then START_ARRAY else START_OBJECT)).val ∧
      tape_tag w2 = (x.tag (if arr then END_ARRAY else END_OBJECT)).val ∧
      tape_count_field w1 = 0 ∧
      tape_index_field w1 = (s.next_tape_index + 2) % 2 ^ 32 := by
  have hne : s.next_tape_loc ≠ s.next_tape_loc + 1 := by omega
  refine ⟨_, _, _, empty_call_eq x s arr, rfl, rfl, ?_, ?_, ?_, ?_, ?_⟩
  · simp only [emptied, Function.update_same, Function.update_noteq hne]
  · simp only [start_tag]
    exact tape_tag_word x _ _ (by omega)
  · simp only [end_tag]
    exact tape_tag_word x _ _ (by omega)
  · simp only [tape_count_field, tape_payload_word]
    omega
  · simp only [tape_index_field, tape_payload_word, tape_builder.next_tape_index]
    omega

/-! ## The depth limit -/

theorem step_open_event (x : externals) (s : tape_builder) (arr : Bool) :
    step x s (open_event arr) = s.start_scope x arr := by
  cases arr <;> rfl

theorem run_opens (x : externals) (hM : x.max_depth ≤ 2 ^ 32) (kinds : List Bool) :
    ∀ s : tape_builder, s.depth + kinds.length < x.max_depth →
      ∃ s', run x (kinds.map open_event) s = some (SUCCESS, s') ∧
        s'.depth = s.depth + kinds.length := by
  induction kinds with
  | nil => intro s _; exact ⟨s, rfl, rfl⟩
  | cons k ks ih =>
    intro s h
    simp only [List.length_cons] at h
    have hmod : (s.depth + 1) % 2 ^ 32 = s.depth + 1 := Nat.mod_eq_of_lt (by omega)
    have hstep : step x s (open_event k) = some (SUCCESS, opened s k) := by
      rw [step_open_event]
      exact start_scope_ok x s k (by omega)
    have hd : (opened s k).depth = s.depth + 1 := hmod
    obtain ⟨s', hrun, hdepth⟩ := ih (opened s k) (by omega)
    refine ⟨s', ?_, ?_⟩
    · rw [List.map_cons, run_cons_success x _ _ _ _ hstep]
      exact hrun
    · rw [hdepth, hd, List.length_cons]
      omega

/-- C4, as stated, fails: with depth limit 3, after `start_document` two `start_array`
calls succeed and reach depth 2, and the third, not the fourth, returns `DEPTH_ERROR`. -/
theorem depth_boundary_counterexample :
    (run (sample_externals 3)
        [event.start_document, event.start_array, event.start_array]
        sample_memory.init).map (fun r => (r.1, r.2.depth)) = some (SUCCESS, 2) ∧
    (run (sample_externals 3)
        [event.start_document, event.start_array, event.start_array, event.start_array]
        sample_memory.init).map Prod.fst = some DEPTH_ERROR := by
  decide

/-- C4, amended. For a depth limit `M` with `1 ≤ M < 2^32`, starting from a fresh builder
after `start_document`, any `M - 1` consecutive `start_array` or `start_object` calls all
succeed and reach depth `M - 1`; one more such call returns `DEPTH_ERROR` without any
access outside the open-container array or the flag array (the call has a result, and
both arrays, the tape and its cursor are as before). -/
theorem depth_boundary (x : externals) (mem : tape_builder) (kinds : List Bool) (arr : Bool)
    (h1 : 1 ≤ x.max_depth) (h2 : x.max_depth < 2 ^ 32)
    (hk : kinds.length = x.max_depth - 1) :
    ∃ s1 s2, run x (event.start_document :: kinds.map open_event) mem.init =
        some (SUCCESS, s1) ∧
      s1.depth = x.max_depth - 1 ∧
      (if arr then s1.start_array x else s1.start_object x) = some (DEPTH_ERROR, s2) ∧
      s2.open_containers = s1.open_containers ∧ s2.is_array = s1.is_array ∧
      s2.doc_tape = s1.doc_tape ∧ s2.next_tape_loc = s1.next_tape_loc := by
  obtain ⟨s0, e0, d0, -⟩ := start_document_ok x mem.init (show (0 : Nat) < x.max_depth by omega)
  have d0' : s0.depth = 0 := d0
  obtain ⟨s1, e1, d1⟩ := run_opens x (by omega) kinds s0 (by omega)
  have hcall : (if arr then s1.start_array x else s1.start_object x) = s1.start_scope x arr := by
    cases arr <;> rfl
  have hmod : (s1.depth + 1) % 2 ^ 32 = s1.depth + 1 := Nat.mod_eq_of_lt (by omega)
  refine ⟨s1, { s1 with depth := (s1.depth + 1) % 2 ^ 32 }, ?_, by omega, ?_, rfl, rfl, rfl,
    rfl⟩
  · rw [run_cons_success x event.start_document _ _ _ e0]
    exact e1
  · rw [hcall]
    exact start_scope_fail x s1 arr (by omega)

/-- C4, amended, instance: depth limit 3, two `start_array` calls, then a third. -/
theorem depth_boundary_witness :
    (1 ≤ (sample_externals 3).max_depth ∧ (sample_externals 3).max_depth < 2 ^ 32 ∧
      [true, true].length = (sample_externals 3).max_depth - 1) ∧
    ∃ s1 s2, run (sample_externals 3)
        (event.start_document :: [true, true].map open_event) sample_memory.init =
        some (SUCCESS, s1) ∧
      s1.depth = (sample_externals 3).max_depth - 1 ∧
      (if true then s1.start_array (sample_externals 3)
        else s1.start_object (sample_externals 3)) = some (DEPTH_ERROR, s2) ∧
      s2.open_containers = s1.open_containers ∧ s2.is_array = s1.is_array ∧
      s2.doc_tape = s1.doc_tape ∧ s2.next_tape_loc = s1.next_tape_loc :=
  ⟨by decide,
   depth_boundary (sample_externals 3) sample_memory [true, true] true (by decide)
     (by decide) (by decide)⟩

/-! ## String records -/

theorem parse_string_eq (x : externals) (s : tape_builder) (value b : List byte) (k : Bool)
    (h : x.parse_string value = some b) :
    s.parse_string x value k = some (SUCCESS, string_parsed x s b) := by
  unfold tape_builder.parse_string tape_builder.stringparsing_parse_string
  simp only [h, tape_builder.on_start_string, tape_builder.on_end_string, tape_writer.append,
    string_parsed, record_written]
  have e : s.current_string_buf_loc + 4 + b.length - (s.current_string_buf_loc + 4) =
      b.length := by omega
  rw [e]

theorem parse_string_none (x : externals) (s : tape_builder) (value : List byte) (k : Bool)
    (h : x.parse_string value = none) :
    s.parse_string x value k =
      some (STRING_ERROR, tape_writer.append x s s.current_string_buf_loc STRING) := by
  unfold tape_builder.parse_string tape_builder.stringparsing_parse_string
  simp only [h, tape_builder.on_start_string]

theorem record_written_length (buf : Nat → byte) (cur : Nat) (b : List byte)
    (hb : b.length < 2 ^ 32) : read_u32 (record_written buf cur b) cur = b.length := by
  have hm : b.length % 2 ^ 32 = b.length := Nat.mod_eq_of_lt hb
  have n0 : cur ≠ cur + 4 + b.length := by omega
  have n1 : cur + 1 ≠ cur + 4 + b.length := by omega
  have n2 : cur + 2 ≠ cur + 4 + b.length := by omega
  have n3 : cur + 3 ≠ cur + 4 + b.length := by omega
  simp only [read_u32, record_written, hm, Function.update_noteq n0, Function.update_noteq n1,
    Function.update_noteq n2, Function.update_noteq n3, tape_builder.store_bytes,
    tape_builder.u32_bytes, List.length_cons, List.length_nil]
  have c0 : cur ≤ cur ∧ cur < cur + (0 + 1 + 1 + 1 + 1) := by omega
  have c1 : cur ≤ cur + 1 ∧ cur + 1 < cur + (0 + 1 + 1 + 1 + 1) := by omega
  have c2 : cur ≤ cur + 2 ∧ cur + 2 < cur + (0 + 1 + 1 + 1 + 1) := by omega
  have c3 : cur ≤ cur + 3 ∧ cur + 3 < cur + (0 + 1 + 1 + 1 + 1) := by omega
  rw [if_pos c0, if_pos c1, if_pos c2, if_pos c3]
  have i0 : cur - cur = 0 := by omega
  have i1 : cur + 1 - cur = 1 := by omega
  have i2 : cur + 2 - cur = 2 := by omega
  have i3 : cur + 3 - cur = 3 := by omega
  rw [i0, i1, i2, i3]
  simp only [List.getD_cons_zero, List.getD_cons_succ, Fin.ofNat, Fin.val_mk]
  omega

theorem record_written_content (buf : Nat → byte) (cur : Nat) (b : List byte) (i : Nat)
    (hi : i < b.length) : record_written buf cur b (cur + 4 + i) = b.getD i 0 := by
  have n : cur + 4 + i ≠ cur + 4 + b.length := by omega
  have c : ¬ (cur ≤ cur + 4 + i ∧
      cur + 4 + i < cur + (tape_builder.u32_bytes (b.length % 2 ^ 32)).length) := by
    simp only [tape_builder.u32_bytes, List.length_cons, List.length_nil]
    omega
  have c' : cur + 4 ≤ cur + 4 + i ∧ cur + 4 + i < cur + 4 + b.length := by omega
  have e : cur + 4 + i - (cur + 4) = i := by omega
  simp only [record_written, Function.update_noteq n, tape_builder.store_bytes, if_neg c,
    if_pos c', e]

theorem record_written_terminator (buf : Nat → byte) (cur : Nat) (b : List byte) :
    record_written buf cur b (cur + 4 + b.length) = 0 := by
  simp only [record_written, Function.update_same]

theorem record_written_read (buf : Nat → byte) (cur : Nat) (b : List byte)
    (hb : b.length < 2 ^ 32) : read_record (record_written buf cur b) cur = b := by
  unfold read_record
  rw [record_written_length buf cur b hb]
  apply List.ext_getElem
  · simp only [List.length_map, List.length_range]
  · intro i h1 h2
    simp only [List.getElem_map, List.getElem_range]
    rw [record_written_content buf cur b i h2]
    exact (List.getD_eq_getElem b 0 h2)

/-- C9. When the string decoder returns the bytes `b` (fewer than 2^32 of them, whatever
their values) for a call of `parse_string` (`key` is the call with the flag `true`) on a
builder whose string-buffer cursor is below 2^56, the call succeeds and appends a STRING
entry whose payload is the offset of the record: the four bytes at that offset are the
little-endian length `|b|`, reading that many bytes after them gives exactly `b`, and the
byte after them is 0. The reading uses the length field only. -/
theorem string_record_round_trip (x : externals) (s : tape_builder) (value b : List byte)
    (k : Bool) (hdec : x.parse_string value = some b) (hb : b.length < 2 ^ 32)
    (hcur : s.current_string_buf_loc < 2 ^ 56) :
    ∃ s', s.parse_string x value k = some (SUCCESS, s') ∧
      s.key x value = s.parse_string x value true ∧
      tape_tag (s'.doc_tape s.next_tape_loc) = (x.tag STRING).val ∧
      tape_payload (s'.doc_tape s.next_tape_loc) = s.current_string_buf_loc ∧
      read_u32 s'.doc_string_buf (tape_payload (s'.doc_tape s.next_tape_loc)) = b.length ∧
      read_record s'.doc_string_buf (tape_payload (s'.doc_tape s.next_tape_loc)) = b ∧
      s'.doc_string_buf (tape_payload (s'.doc_tape s.next_tape_loc) + 4 + b.length) = 0 := by
  have hp : tape_payload ((string_parsed x s b).doc_tape s.next_tape_loc) =
      s.current_string_buf_loc := by
    simp only [string_parsed, Function.update_same, tape_payload_word]
    omega
  refine ⟨_, parse_string_eq x s value b k hdec, rfl, ?_, hp, ?_, ?_, ?_⟩
  · simp only [string_parsed, Function.update_same, tape_tag_word x _ STRING hcur]
  · rw [hp]
    exact record_written_length _ _ b hb
  · rw [hp]
    exact record_written_read _ _ b hb
  · rw [hp]
    exact record_written_terminator _ _ b

/-- C9, instance: the key `"a\0b"` with an embedded NUL byte, decoded by the sample string
decoder. -/
theorem string_record_round_trip_witness :
    ((sample_externals 8).parse_string [34, 97, 0, 98, 34, 58] = some [97, 0, 98] ∧
      [(97 : byte), 0, 98].length < 2 ^ 32 ∧ sample_memory.current_string_buf_loc < 2 ^ 56) ∧
    ∃ s', sample_memory.parse_string (sample_externals 8) [34, 97, 0, 98, 34, 58] true =
        some (SUCCESS, s') ∧
      sample_memory.key (sample_externals 8) [34, 97, 0, 98, 34, 58] =
        sample_memory.parse_string (sample_externals 8) [34, 97, 0, 98, 34, 58] true ∧
      tape_tag (s'.doc_tape sample_memory.next_tape_loc) =
        ((sample_externals 8).tag STRING).val ∧
      tape_payload (s'.doc_tape sample_memory.next_tape_loc) =
        sample_memory.current_string_buf_loc ∧
      read_u32 s'.doc_string_buf (tape_payload (s'.doc_tape sample_memory.next_tape_loc)) =
        [(97 : byte), 0, 98].length ∧
      read_record s'.doc_string_buf (tape_payload (s'.doc_tape sample_memory.next_tape_loc)) =
        [97, 0, 98] ∧
      s'.doc_string_buf (tape_payload (s'.doc_tape sample_memory.next_tape_loc) + 4 +
        [(97 : byte), 0, 98].length) = 0 :=
  ⟨by decide,
   string_record_round_trip (sample_externals 8) sample_memory [34, 97, 0, 98, 34, 58]
     [97, 0, 98] true (by decide) (by decide) (by decide)⟩

/-! ## What each call leaves untouched -/

theorem same_strings_refl (s : tape_builder) : same_strings s s := ⟨rfl, rfl⟩

theorem same_scopes_refl (s : tape_builder) : same_scopes s s := ⟨rfl, rfl, rfl⟩

theorem append_frame (x : externals) (s : tape_builder) (val : Nat) (t : tape_type) :
    same_scopes s (tape_writer.append x s val t) ∧
    same_strings s (tape_writer.append x s val t) ∧
    (tape_writer.append x s val t).next_tape_loc = s.next_tape_loc + 1 :=
  ⟨⟨rfl, rfl, rfl⟩, ⟨rfl, rfl⟩, rfl⟩

theorem atom_frame (x : externals) (s : tape_builder) (ok : Bool) (err : error_code)
    (t : tape_type) (r : error_code) (s' : tape_builder)
    (h : (if ok = false then some (err, s)
      else some (SUCCESS, tape_writer.append x s 0 t)) = some (r, s')) :
    same_scopes s s' ∧ same_strings s s' ∧ s.next_tape_loc ≤ s'.next_tape_loc := by
  split at h
  · simp only [Option.some.injEq, Prod.mk.injEq] at h
    obtain ⟨-, rfl⟩ := h
    exact ⟨same_scopes_refl s, same_strings_refl s, Nat.le_refl _⟩
  · simp only [Option.some.injEq, Prod.mk.injEq] at h
    obtain ⟨-, rfl⟩ := h
    exact ⟨⟨rfl, rfl, rfl⟩, ⟨rfl, rfl⟩, Nat.le_succ _⟩

theorem parse_number_frame (x : externals) (s : tape_builder) (value : List byte)
    (r : error_code) (s' : tape_builder) (h : s.parse_number x value = some (r, s')) :
    same_scopes s s' ∧ same_strings s s' ∧ s.next_tape_loc ≤ s'.next_tape_loc := by
  cases hdec : x.parse_number value with
  | none =>
    unfold tape_builder.parse_number tape_builder.numberparsing_parse_number at h
    simp only [hdec, Option.some.injEq, Prod.mk.injEq] at h
    obtain ⟨-, rfl⟩ := h
    exact ⟨same_scopes_refl s, same_strings_refl s, Nat.le_refl _⟩
  | some ws =>
    rw [parse_number_ok x s value ws hdec] at h
    simp only [Option.some.injEq, Prod.mk.injEq] at h
    obtain ⟨-, rfl⟩ := h
    obtain ⟨h1, h2, h3, h4, h5, h6⟩ := append_words_frame ws s
    exact ⟨⟨h1, h2, h3⟩, ⟨h4, h5⟩, by omega⟩

theorem parse_root_number_frame (x : externals) (s : tape_builder) (iter : json_iterator)
    (value : List byte) (r : error_code) (s' : tape_builder)
    (h : s.parse_root_number x iter value = some (r, s')) :
    same_scopes s s' ∧ same_strings s s' ∧ s.next_tape_loc ≤ s'.next_tape_loc := by
  unfold tape_builder.parse_root_number at h
  split at h
  · simp only [Option.some.injEq, Prod.mk.injEq] at h
    obtain ⟨-, rfl⟩ := h
    exact ⟨same_scopes_refl s, same_strings_refl s, Nat.le_refl _⟩
  · exact parse_number_frame x s _ r s' h

theorem parse_string_scopes (x : externals) (s : tape_builder) (value : List byte) (k : Bool)
    (r : error_code) (s' : tape_builder) (h : s.parse_string x value k = some (r, s')) :
    same_scopes s s' ∧ s'.next_tape_loc = s.next_tape_loc + 1 := by
  cases hdec : x.parse_string value with
  | none =>
    rw [parse_string_none x s value k hdec] at h
    simp only [Option.some.injEq, Prod.mk.injEq] at h
    obtain ⟨-, rfl⟩ := h
    exact ⟨⟨rfl, rfl, rfl⟩, rfl⟩
  | some b =>
    rw [parse_string_eq x s value b k hdec] at h
    simp only [Option.some.injEq, Prod.mk.injEq] at h
    obtain ⟨-, rfl⟩ := h
    exact ⟨⟨rfl, rfl, rfl⟩, rfl⟩

theorem empty_container_frame (x : externals) (s : tape_builder) (start end_ : tape_type) :
    same_scopes s (emptied x s start end_) ∧ same_strings s (emptied x s start end_) ∧
    (emptied x s start end_).next_tape_loc = s.next_tape_loc + 2 :=
  ⟨⟨rfl, rfl, rfl⟩, ⟨rfl, rfl⟩, rfl⟩

theorem primitive_scopes (x : externals) (s : tape_builder) (value : List byte)
    (r : error_code) (s' : tape_builder) (h : s.primitive x value = some (r, s')) :
    same_scopes s s' ∧ s.next_tape_loc ≤ s'.next_tape_loc := by
  unfold tape_builder.primitive at h
  split at h
  · cases h
  · split at h
    · obtain ⟨h1, h2⟩ := parse_string_scopes x s _ _ r s' h
      exact ⟨h1, by omega⟩
    · split at h
      · obtain ⟨h1, -, h3⟩ := atom_frame x s _ _ _ r s' h
        exact ⟨h1, h3⟩
      · split at h
        · obtain ⟨h1, -, h3⟩ := atom_frame x s _ _ _ r s' h
          exact ⟨h1, h3⟩
        · split at h
          · obtain ⟨h1, -, h3⟩ := atom_frame x s _ _ _ r s' h
            exact ⟨h1, h3⟩
          · split at h
            · obtain ⟨h1, -, h3⟩ := parse_number_frame x s _ r s' h
              exact ⟨h1, h3⟩
            · simp only [Option.some.injEq, Prod.mk.injEq] at h
              obtain ⟨-, rfl⟩ := h
              exact ⟨same_scopes_refl s, Nat.le_refl _⟩

theorem root_primitive_scopes (x : externals) (s : tape_builder) (iter : json_iterator)
    (value : List byte) (r : error_code) (s' : tape_builder)
    (h : s.root_primitive x iter value = some (r, s')) :
    same_scopes s s' ∧ s.next_tape_loc ≤ s'.next_tape_loc := by
  unfold tape_builder.root_primitive at h
  split at h
  · cases h
  · split at h
    · obtain ⟨h1, h2⟩ := parse_string_scopes x s _ _ r s' h
      exact ⟨h1, by omega⟩
    · split at h
      · obtain ⟨h1, -, h3⟩ := atom_frame x s _ _ _ r s' h
        exact ⟨h1, h3⟩
      · split at h
        · obtain ⟨h1, -, h3⟩ := atom_frame x s _ _ _ r s' h
          exact ⟨h1, h3⟩
        · split at h
          · obtain ⟨h1, -, h3⟩ := atom_frame x s _ _ _ r s' h
            exact ⟨h1, h3⟩
          · split at h
            · obtain ⟨h1, -, h3⟩ := parse_root_number_frame x s iter _ r s' h
              exact ⟨h1, h3⟩
            · simp only [Option.some.injEq, Prod.mk.injEq] at h
              obtain ⟨-, rfl⟩ := h
              exact ⟨same_scopes_refl s, Nat.le_refl _⟩

theorem start_document_strings (x : externals) (s : tape_builder) (r : error_code)
    (s' : tape_builder) (h : s.start_document x = some (r, s')) : same_strings s s' := by
  unfold tape_builder.start_document tape_builder.start_container
    tape_builder.set_is_array at h
  by_cases hd : s.depth < x.max_depth
  · simp only [if_pos hd, tape_writer.skip, Option.some.injEq, Prod.mk.injEq] at h
    obtain ⟨-, rfl⟩ := h
    exact ⟨rfl, rfl⟩
  · simp only [if_neg hd] at h
    cases h

theorem start_scope_strings (x : externals) (s : tape_builder) (arr : Bool) (r : error_code)
    (s' : tape_builder) (h : s.start_scope x arr = some (r, s')) : same_strings s s' := by
  by_cases hd : (s.depth + 1) % 2 ^ 32 < x.max_depth
  · rw [start_scope_ok x s arr hd] at h
    simp only [Option.some.injEq, Prod.mk.injEq] at h
    obtain ⟨-, rfl⟩ := h
    exact ⟨rfl, rfl⟩
  · rw [start_scope_fail x s arr (by omega)] at h
    simp only [Option.some.injEq, Prod.mk.injEq] at h
    obtain ⟨-, rfl⟩ := h
    exact ⟨rfl, rfl⟩

theorem end_container_strings (x : externals) (s : tape_builder) (start end_ : tape_type)
    (r : error_code) (s' : tape_builder) (h : s.end_container x start end_ = some (r, s')) :
    same_strings s s' := by
  unfold tape_builder.end_container at h
  split at h
  · simp only [tape_writer.write, tape_writer.append, Option.some.injEq, Prod.mk.injEq] at h
    obtain ⟨-, rfl⟩ := h
    exact ⟨rfl, rfl⟩
  · cases h

theorem increment_count_strings (x : externals) (s : tape_builder) (r : error_code)
    (s' : tape_builder) (h : s.increment_count x = some (r, s')) : same_strings s s' := by
  unfold tape_builder.increment_count at h
  split at h
  · simp only [Option.some.injEq, Prod.mk.injEq] at h
    obtain ⟨-, rfl⟩ := h
    exact ⟨rfl, rfl⟩
  · cases h

theorem end_document_strings (x : externals) (s : tape_builder) (iter : json_iterator)
    (r : error_code) (s' : tape_builder) (h : s.end_document x iter = some (r, s')) :
    same_strings s s' := by
  rw [end_document_eq] at h
  simp only [Option.some.injEq, Prod.mk.injEq] at h
  obtain ⟨-, rfl⟩ := h
  exact ⟨rfl, rfl⟩

theorem record_written_below (buf : Nat → byte) (cur : Nat) (b : List byte) (i : Nat)
    (hi : i < cur) : record_written buf cur b i = buf i := by
  have n : i ≠ cur + 4 + b.length := by omega
  have c1 : ¬ (cur ≤ i ∧ i < cur + (tape_builder.u32_bytes (b.length % 2 ^ 32)).length) := by
    omega
  have c2 : ¬ (cur + 4 ≤ i ∧ i < cur + 4 + b.length) := by omega
  simp only [record_written, Function.update_noteq n, tape_builder.store_bytes, if_neg c1,
    if_neg c2]

theorem strings_of_same (s s' : tape_builder) (n : Nat) (r : error_code)
    (h : same_strings s s') (hn : n = 0) :
    s.current_string_buf_loc ≤ s'.current_string_buf_loc ∧
    (∀ i, i < s.current_string_buf_loc → s'.doc_string_buf i = s.doc_string_buf i) ∧
    (r = SUCCESS → s'.current_string_buf_loc = s.current_string_buf_loc + n) := by
  obtain ⟨h1, h2⟩ := h
  refine ⟨by omega, ?_, ?_⟩
  · intro i _
    rw [h1]
  · intro _
    omega

theorem parse_string_strings (x : externals) (s : tape_builder) (value : List byte) (k : Bool)
    (r : error_code) (s' : tape_builder) (h : s.parse_string x value k = some (r, s')) :
    s.current_string_buf_loc ≤ s'.current_string_buf_loc ∧
    (∀ i, i < s.current_string_buf_loc → s'.doc_string_buf i = s.doc_string_buf i) ∧
    (r = SUCCESS → s'.current_string_buf_loc = s.current_string_buf_loc +
      (match x.parse_string value with
       | none => 0
       | some b => b.length + 5)) := by
  cases hdec : x.parse_string value with
  | none =>
    rw [parse_string_none x s value k hdec] at h
    simp only [Option.some.injEq, Prod.mk.injEq] at h
    obtain ⟨rfl, rfl⟩ := h
    refine ⟨Nat.le_refl _, fun i _ => rfl, ?_⟩
    intro hr
    cases hr
  | some b =>
    rw [parse_string_eq x s value b k hdec] at h
    simp only [Option.some.injEq, Prod.mk.injEq] at h
    obtain ⟨-, rfl⟩ := h
    refine ⟨?_, ?_, ?_⟩
    · show s.current_string_buf_loc ≤ s.current_string_buf_loc + 4 + b.length + 1
      omega
    · intro i hi
      exact record_written_below _ _ b i hi
    · intro _
      show s.current_string_buf_loc + 4 + b.length + 1 =
        s.current_string_buf_loc + (b.length + 5)
      omega

theorem primitive_strings (x : externals) (s : tape_builder) (value : List byte)
    (r : error_code) (s' : tape_builder) (h : s.primitive x value = some (r, s')) :
    s.current_string_buf_loc ≤ s'.current_string_buf_loc ∧
    (∀ i, i < s.current_string_buf_loc → s'.doc_string_buf i = s.doc_string_buf i) ∧
    (r = SUCCESS → s'.current_string_buf_loc = s.current_string_buf_loc +
      record_size x (event.primitive value)) := by
  unfold tape_builder.primitive at h
  split at h
  · cases h
  · rename_i c rest
    by_cases h34 : c.val = 34
    · rw [if_pos h34] at h
      have hs := parse_string_strings x s _ _ r s' h
      simpa only [record_size, event.string_value, if_pos h34] using hs
    · rw [if_neg h34] at h
      have hz : record_size x (event.primitive (c :: rest)) = 0 := by
        simp only [record_size, event.string_value, if_neg h34]
      apply strings_of_same s s' _ r _ hz
      split at h
      · exact (atom_frame x s _ _ _ r s' h).2.1
      · split at h
        · exact (atom_frame x s _ _ _ r s' h).2.1
        · split at h
          · exact (atom_frame x s _ _ _ r s' h).2.1
          · split at h
            · exact (parse_number_frame x s _ r s' h).2.1
            · simp only [Option.some.injEq, Prod.mk.injEq] at h
              obtain ⟨-, rfl⟩ := h
              exact same_strings_refl s

theorem root_primitive_strings (x : externals) (s : tape_builder) (iter : json_iterator)
    (value : List byte) (r : error_code) (s' : tape_builder)
    (h : s.root_primitive x iter value = some (r, s')) :
    s.current_string_buf_loc ≤ s'.current_string_buf_loc ∧
    (∀ i, i < s.current_string_buf_loc → s'.doc_string_buf i = s.doc_string_buf i) ∧
    (r = SUCCESS → s'.current_string_buf_loc = s.current_string_buf_loc +
      record_size x (event.root_primitive iter value)) := by
  unfold tape_builder.root_primitive at h
  split at h
  · cases h
  · rename_i c rest
    by_cases h34 : c.val = 34
    · rw [if_pos h34] at h
      have hs := parse_string_strings x s _ _ r s' h
      simpa only [record_size, event.string_value, if_pos h34] using hs
    · rw [if_neg h34] at h
      have hz : record_size x (event.root_primitive iter (c :: rest)) = 0 := by
        simp only [record_size, event.string_value, if_neg h34]
      apply strings_of_same s s' _ r _ hz
      split at h
      · exact (atom_frame x s _ _ _ r s' h).2.1
      · split at h
        · exact (atom_frame x s _ _ _ r s' h).2.1
        · split at h
          · exact (atom_frame x s _ _ _ r s' h).2.1
          · split at h
            · exact (parse_root_number_frame x s iter _ r s' h).2.1
            · simp only [Option.some.injEq, Prod.mk.injEq] at h
              obtain ⟨-, rfl⟩ := h
              exact same_strings_refl s

theorem end_container_iter_strings (s : tape_builder) :
    same_strings s s.end_container_iter := by
  unfold same_strings tape_builder.end_container_iter
  exact ⟨rfl, rfl⟩

theorem record_size_zero (x : externals) (e : event) (h : e.string_value = none) :
    record_size x e = 0 := by
  unfold record_size
  rw [h]

theorem step_strings (x : externals) (s : tape_builder) (e : event) (r : error_code)
    (s' : tape_builder) (h : step x s e = some (r, s')) :
    s.current_string_buf_loc ≤ s'.current_string_buf_loc ∧
    (∀ i, i < s.current_string_buf_loc → s'.doc_string_buf i = s.doc_string_buf i) ∧
    (r = SUCCESS → s'.current_string_buf_loc = s.current_string_buf_loc + record_size x e) := by
  cases e with
  | start_document =>
    exact strings_of_same s s' _ r (start_document_strings x s r s' h)
      (record_size_zero x _ rfl)
  | start_object =>
    exact strings_of_same s s' _ r (start_scope_strings x s false r s' h)
      (record_size_zero x _ rfl)
  | start_array =>
    exact strings_of_same s s' _ r (start_scope_strings x s true r s' h)
      (record_size_zero x _ rfl)
  | end_object =>
    exact strings_of_same s s' _ r (end_container_strings x s _ _ r s' h)
      (record_size_zero x _ rfl)
  | end_array =>
    exact strings_of_same s s' _ r (end_container_strings x s _ _ r s' h)
      (record_size_zero x _ rfl)
  | end_container =>
    simp only [step, Option.some.injEq, Prod.mk.injEq] at h
    obtain ⟨-, rfl⟩ := h
    exact strings_of_same s s.end_container_iter _ r (end_container_iter_strings s)
      (record_size_zero x _ rfl)
  | end_document iter =>
    exact strings_of_same s s' _ r (end_document_strings x s iter r s' h)
      (record_size_zero x _ rfl)
  | key value => exact parse_string_strings x s value true r s' h
  | primitive value => exact primitive_strings x s value r s' h
  | root_primitive iter value => exact root_primitive_strings x s iter value r s' h
  | next_array_element =>
    exact strings_of_same s s' _ r (increment_count_strings x s r s' h) (record_size_zero x _ rfl)
  | next_field =>
    exact strings_of_same s s' _ r (increment_count_strings x s r s' h)
      (record_size_zero x _ rfl)
  | empty_object =>
    rw [show step x s event.empty_object = some (SUCCESS, emptied x s _ _) from rfl] at h
    simp only [Option.some.injEq, Prod.mk.injEq] at h
    obtain ⟨-, rfl⟩ := h
    exact strings_of_same s (emptied x s _ _) _ r ⟨rfl, rfl⟩ (record_size_zero x _ rfl)
  | empty_array =>
    rw [show step x s event.empty_array = some (SUCCESS, emptied x s _ _) from rfl] at h
    simp only [Option.some.injEq, Prod.mk.injEq] at h
    obtain ⟨-, rfl⟩ := h
    exact strings_of_same s (emptied x s _ _) _ r ⟨rfl, rfl⟩ (record_size_zero x _ rfl)

/-! ## Runs -/

theorem run_cons_inv (x : externals) (e : event) (es : List event) (s s3 : tape_builder)
    (h : run x (e :: es) s = some (SUCCESS, s3)) :
    ∃ s1, step x s e = some (SUCCESS, s1) ∧ run x es s1 = some (SUCCESS, s3) := by
  unfold run at h
  cases hstep : step x s e with
  | none => rw [hstep] at h; cases h
  | some p =>
    obtain ⟨r, s1⟩ := p
    rw [hstep] at h
    cases r <;> first
      | exact ⟨s1, rfl, h⟩
      | (simp only [Option.some.injEq, Prod.mk.injEq] at h; exact absurd h.1 (by decide))

theorem run_append_inv (x : externals) (pre rest : List event) :
    ∀ s s3 : tape_builder, run x (pre ++ rest) s = some (SUCCESS, s3) →
      ∃ s1, run x pre s = some (SUCCESS, s1) ∧ run x rest s1 = some (SUCCESS, s3) := by
  induction pre with
  | nil => intro s s3 h; exact ⟨s, rfl, h⟩
  | cons e es ih =>
    intro s s3 h
    obtain ⟨s0, h0, h1⟩ := run_cons_inv x e (es ++ rest) s s3 h
    obtain ⟨s1, h2, h3⟩ := ih s0 s3 h1
    exact ⟨s1, by rw [run_cons_success x e es s s0 h0]; exact h2, h3⟩

theorem run_of_code (x : externals) (es : List event) (s : tape_builder)
    (h : (run x es s).map Prod.fst = some SUCCESS) : ∃ s', run x es s = some (SUCCESS, s') := by
  cases hr : run x es s with
  | none => rw [hr] at h; cases h
  | some p =>
    obtain ⟨r, s'⟩ := p
    rw [hr] at h
    simp only [Option.map_some', Option.some.injEq] at h
    subst h
    exact ⟨s', rfl⟩

theorem run_strings (x : externals) (es : List event) :
    ∀ s s' : tape_builder, run x es s = some (SUCCESS, s') →
      s.current_string_buf_loc ≤ s'.current_string_buf_loc ∧
      (∀ i, i < s.current_string_buf_loc → s'.doc_string_buf i = s.doc_string_buf i) ∧
      s'.current_string_buf_loc = s.current_string_buf_loc + record_sizes x es := by
  induction es with
  | nil =>
    intro s s' h
    simp only [run, Option.some.injEq, Prod.mk.injEq, true_and] at h
    subst h
    exact ⟨Nat.le_refl _, fun i _ => rfl, rfl⟩
  | cons e es ih =>
    intro s s' h
    obtain ⟨s1, h1, h2⟩ := run_cons_inv x e es s s' h
    obtain ⟨a1, a2, a3⟩ := step_strings x s e SUCCESS s1 h1
    obtain ⟨b1, b2, b3⟩ := ih s1 s' h2
    refine ⟨by omega, ?_, ?_⟩
    · intro i hi
      rw [b2 i (by omega), a2 i hi]
    · rw [b3, a3 rfl]
      simp only [record_sizes, List.map_cons, List.sum_cons]
      omega

theorem string_event_step (x : externals) (s : tape_builder) (e : event) (value : List byte)
    (h : e.string_value = some value) : ∃ k, step x s e = s.parse_string x value k := by
  cases e with
  | key v =>
    simp only [event.string_value, Option.some.injEq] at h
    subst h
    exact ⟨true, rfl⟩
  | primitive v =>
    cases v with
    | nil => simp only [event.string_value] at h; cases h
    | cons c rest =>
      by_cases h34 : c.val = 34
      · simp only [event.string_value, if_pos h34, Option.some.injEq] at h
        subst h
        refine ⟨false, ?_⟩
        show s.primitive x (c :: rest) = _
        simp only [tape_builder.primitive, if_pos h34]
      · simp only [event.string_value, if_neg h34] at h
        cases h
  | root_primitive iter v =>
    cases v with
    | nil => simp only [event.string_value] at h; cases h
    | cons c rest =>
      by_cases h34 : c.val = 34
      · simp only [event.string_value, if_pos h34, Option.some.injEq] at h
        subst h
        refine ⟨false, ?_⟩
        show s.root_primitive x iter (c :: rest) = _
        simp only [tape_builder.root_primitive, if_pos h34]
      · simp only [event.string_value, if_neg h34] at h
        cases h
  | start_document => simp only [event.string_value] at h; cases h
  | start_object => simp only [event.string_value] at h; cases h
  | start_array => simp only [event.string_value] at h; cases h
  | end_object => simp only [event.string_value] at h; cases h
  | end_array => simp only [event.string_value] at h; cases h
  | end_container => simp only [event.string_value] at h; cases h
  | end_document iter => simp only [event.string_value] at h; cases h
  | next_array_element => simp only [event.string_value] at h; cases h
  | next_field => simp only [event.string_value] at h; cases h
  | empty_object => simp only [event.string_value] at h; cases h
  | empty_array => simp only [event.string_value] at h; cases h

/-- C10. In a parse that starts from a fresh builder and in which every call succeeds, take
any string or key parse `e` (decoded bytes `b`), the calls `before` it and the calls `after`
it. The string-buffer cursor before `e` is the sum of `n + 5` over the string records of
`before`; when that offset is below 2^56, the STRING entry `e` appends has it as payload;
`e` advances the string-buffer cursor by exactly `|b| + 5`; and no call of `after` changes
a byte below the cursor `e` left, so no later record overwrites an earlier one. -/
theorem string_records_contiguous (x : externals) (mem : tape_builder)
    (before after : List event) (e : event) (value b : List byte)
    (hs : e.string_value = some value) (hdec : x.parse_string value = some b)
    (hrun : (run x (before ++ e :: after) mem.init).map Prod.fst = some SUCCESS)
    (hoff : record_sizes x before < 2 ^ 56) :
    ∃ s1 s2 s3, run x before mem.init = some (SUCCESS, s1) ∧
      step x s1 e = some (SUCCESS, s2) ∧ run x after s2 = some (SUCCESS, s3) ∧
      s1.current_string_buf_loc = record_sizes x before ∧
      tape_tag (s2.doc_tape s1.next_tape_loc) = (x.tag STRING).val ∧
      tape_payload (s2.doc_tape s1.next_tape_loc) = record_sizes x before ∧
      s2.next_tape_loc = s1.next_tape_loc + 1 ∧
      s2.current_string_buf_loc = s1.current_string_buf_loc + (b.length + 5) ∧
      (∀ i, i < s2.current_string_buf_loc → s3.doc_string_buf i = s2.doc_string_buf i) := by
  obtain ⟨s3, h3⟩ := run_of_code x _ _ hrun
  obtain ⟨s1, hpre, hrest⟩ := run_append_inv x before (e :: after) _ _ h3
  obtain ⟨s2, hstep, hpost⟩ := run_cons_inv x e after s1 s3 hrest
  obtain ⟨k, hk⟩ := string_event_step x s1 e value hs
  have hs2 : s2 = string_parsed x s1 b := by
    rw [hk, parse_string_eq x s1 value b k hdec] at hstep
    simp only [Option.some.injEq, Prod.mk.injEq, true_and] at hstep
    exact hstep.symm
  have hcur : s1.current_string_buf_loc = record_sizes x before := by
    have := (run_strings x before _ _ hpre).2.2
    rw [this]
    show 0 + record_sizes x before = record_sizes x before
    omega
  refine ⟨s1, s2, s3, hpre, hstep, hpost, hcur, ?_, ?_, ?_, ?_, ?_⟩
  · rw [hs2]
    simp only [string_parsed, Function.update_same]
    exact tape_tag_word x _ STRING (by omega)
  · rw [hs2]
    simp only [string_parsed, Function.update_same, tape_payload_word]
    omega
  · rw [hs2]
    rfl
  · rw [hs2]
    show s1.current_string_buf_loc + 4 + b.length + 1 = _
    omega
  · exact (run_strings x after _ _ hpost).2.1

/-- C10, instance: the second string of `{"a":"bc","d":[]}` with the sample decoders; the
key `a` before it takes 6 bytes, so its record starts at offset 6. -/
theorem string_records_contiguous_witness :
    ((event.primitive [34, 98, 99, 34, 44]).string_value = some [34, 98, 99, 34, 44] ∧
      (sample_externals 8).parse_string [34, 98, 99, 34, 44] = some [98, 99] ∧
      (run (sample_externals 8)
        (sample_calls_before ++ event.primitive [34, 98, 99, 34, 44] :: sample_calls_after)
        sample_memory.init).map Prod.fst = some SUCCESS ∧
      record_sizes (sample_externals 8) sample_calls_before = 6) ∧
    ∃ s1 s2 s3, run (sample_externals 8) sample_calls_before sample_memory.init =
        some (SUCCESS, s1) ∧
      step (sample_externals 8) s1 (event.primitive [34, 98, 99, 34, 44]) =
        some (SUCCESS, s2) ∧
      run (sample_externals 8) sample_calls_after s2 = some (SUCCESS, s3) ∧
      s1.current_string_buf_loc = record_sizes (sample_externals 8) sample_calls_before ∧
      tape_tag (s2.doc_tape s1.next_tape_loc) = ((sample_externals 8).tag STRING).val ∧
      tape_payload (s2.doc_tape s1.next_tape_loc) =
        record_sizes (sample_externals 8) sample_calls_before ∧
      s2.next_tape_loc = s1.next_tape_loc + 1 ∧
      s2.current_string_buf_loc = s1.current_string_buf_loc + ([(98 : byte), 99].length + 5) ∧
      (∀ i, i < s2.current_string_buf_loc → s3.doc_string_buf i = s2.doc_string_buf i) :=
  ⟨by decide,
   string_records_contiguous (sample_externals 8) sample_memory sample_calls_before
     sample_calls_after (event.primitive [34, 98, 99, 34, 44]) [34, 98, 99, 34, 44] [98, 99]
     (by decide) (by decide) (by decide) (by decide)⟩

/-! ## Containers -/

theorem end_container_eq (x : externals) (s : tape_builder) (start end_ : tape_type)
    (h : s.depth < x.max_depth) :
    s.end_container x start end_ = some (SUCCESS, closed x s start end_) := by
  unfold tape_builder.end_container
  simp only [if_pos h, tape_writer.append, tape_writer.write, tape_builder.next_tape_index, closed,
    cntsat]

theorem step_close_event (x : externals) (s : tape_builder) (arr : Bool) :
    step x s (close_event arr) = s.end_container x (start_tag arr) (end_tag arr) := by
  cases arr <;> rfl

theorem increment_count_eq (x : externals) (s : tape_builder) (h : s.depth < x.max_depth) :
    s.increment_count x = some (SUCCESS, counted s) := by
  unfold tape_builder.increment_count
  simp only [if_pos h, counted, count_succ]

theorem increment_count_inv (x : externals) (s s' : tape_builder) (r : error_code)
    (h : s.increment_count x = some (r, s')) : s.depth < x.max_depth ∧ s' = counted s := by
  by_cases hd : s.depth < x.max_depth
  · rw [increment_count_eq x s hd] at h
    simp only [Option.some.injEq, Prod.mk.injEq] at h
    exact ⟨hd, h.2.symm⟩
  · unfold tape_builder.increment_count at h
    simp only [if_neg hd] at h
    cases h

theorem start_scope_inv (x : externals) (s s' : tape_builder) (arr : Bool)
    (h : s.start_scope x arr = some (SUCCESS, s')) :
    (s.depth + 1) % 2 ^ 32 < x.max_depth ∧ s' = opened s arr := by
  by_cases hd : (s.depth + 1) % 2 ^ 32 < x.max_depth
  · rw [start_scope_ok x s arr hd] at h
    simp only [Option.some.injEq, Prod.mk.injEq, true_and] at h
    exact ⟨hd, h.symm⟩
  · rw [start_scope_fail x s arr (by omega)] at h
    simp only [Option.some.injEq, Prod.mk.injEq] at h
    exact absurd h.1 (by decide)

theorem separator_step (x : externals) (s s' : tape_builder) (e : event) (r : error_code)
    (he : e.is_separator = true) (h : step x s e = some (r, s')) :
    s.depth < x.max_depth ∧ s' = counted s := by
  cases e <;> first
    | exact increment_count_inv x s s' r h
    | (simp only [event.is_separator] at he; cases he)

theorem value_step (x : externals) (s s' : tape_builder) (e : event) (r : error_code)
    (he : e.is_value = true) (h : step x s e = some (r, s')) :
    same_scopes s s' ∧ s.next_tape_loc ≤ s'.next_tape_loc := by
  cases e with
  | key value =>
    obtain ⟨h1, h2⟩ := parse_string_scopes x s value true r s' h
    exact ⟨h1, by omega⟩
  | primitive value => exact primitive_scopes x s value r s' h
  | empty_object =>
    rw [show step x s event.empty_object = some (SUCCESS, emptied x s _ _) from rfl] at h
    simp only [Option.some.injEq, Prod.mk.injEq] at h
    obtain ⟨-, rfl⟩ := h
    exact ⟨⟨rfl, rfl, rfl⟩, Nat.le_add_right _ 2⟩
  | empty_array =>
    rw [show step x s event.empty_array = some (SUCCESS, emptied x s _ _) from rfl] at h
    simp only [Option.some.injEq, Prod.mk.injEq] at h
    obtain ⟨-, rfl⟩ := h
    exact ⟨⟨rfl, rfl, rfl⟩, Nat.le_add_right _ 2⟩
  | start_document => simp only [event.is_value] at he; cases he
  | start_object => simp only [event.is_value] at he; cases he
  | start_array => simp only [event.is_value] at he; cases he
  | end_object => simp only [event.is_value] at he; cases he
  | end_array => simp only [event.is_value] at he; cases he
  | end_container => simp only [event.is_value] at he; cases he
  | end_document iter => simp only [event.is_value] at he; cases he
  | root_primitive iter value => simp only [event.is_value] at he; cases he
  | next_array_element => simp only [event.is_value] at he; cases he
  | next_field => simp only [event.is_value] at he; cases he

theorem well_nested_frame (x : externals) (hM : x.max_depth < 2 ^ 32) (k : Nat)
    (es : List event) (hw : well_nested k es) :
    ∀ s s' : tape_builder, s.depth < x.max_depth → run x es s = some (SUCCESS, s') →
      s'.depth = s.depth ∧
      (∀ j, j < s.depth → s'.open_containers j = s.open_containers j) ∧
      s'.open_containers s.depth =
        open_container.mk (s.open_containers s.depth).tape_index
          (count_succ^[k] (s.open_containers s.depth).count) ∧
      (∀ j, j ≤ s.depth → s'.is_array j = s.is_array j) ∧
      s.next_tape_loc ≤ s'.next_tape_loc := by
  induction hw with
  | nil =>
    intro s s' _ h
    simp only [run, Option.some.injEq, Prod.mk.injEq, true_and] at h
    subst h
    exact ⟨rfl, fun _ _ => rfl, rfl, fun _ _ => rfl, Nat.le_refl _⟩
  | separator e rest k he _ ih =>
    intro s s' hd h
    obtain ⟨s1, h1, h2⟩ := run_cons_inv x e rest s s' h
    obtain ⟨-, rfl⟩ := separator_step x s s1 e SUCCESS he h1
    obtain ⟨a1, a2, a3, a4, a5⟩ := ih (counted s) s' hd h2
    have hdep : (counted s).depth = s.depth := rfl
    rw [hdep] at a1 a2 a3 a4
    refine ⟨a1, ?_, ?_, a4, a5⟩
    · intro j hj
      rw [a2 j hj]
      exact Function.update_noteq (by omega) _ _
    · rw [a3]
      simp only [counted, Function.update_same, Function.iterate_succ, Function.comp_apply]
  | value e rest k he _ ih =>
    intro s s' hd h
    obtain ⟨s1, h1, h2⟩ := run_cons_inv x e rest s s' h
    obtain ⟨⟨b1, b2, b3⟩, b4⟩ := value_step x s s1 e SUCCESS he h1
    obtain ⟨a1, a2, a3, a4, a5⟩ := ih s1 s' (by omega) h2
    rw [b1] at a1 a2 a3 a4
    rw [b2] at a2 a3
    rw [b3] at a4
    exact ⟨a1, a2, a3, a4, by omega⟩
  | container arr body rest j k _ _ ihb ihr =>
    intro s s' hd h
    obtain ⟨s1, h1, h2⟩ := run_cons_inv x _ _ s s' h
    rw [step_open_event] at h1
    obtain ⟨hlt, rfl⟩ := start_scope_inv x s s1 arr h1
    have hmod : (s.depth + 1) % 2 ^ 32 = s.depth + 1 := Nat.mod_eq_of_lt (by omega)
    have d1 : (opened s arr).depth = s.depth + 1 := hmod
    obtain ⟨sb, h3, h4⟩ := run_append_inv x body _ _ _ h2
    obtain ⟨b1, b2, -, b4, b5⟩ := ihb (opened s arr) sb (by omega) h3
    rw [d1] at b1 b2 b4
    obtain ⟨sc, h5, h6⟩ := run_cons_inv x _ _ sb _ h4
    rw [step_close_event, end_container_eq x sb _ _ (by omega)] at h5
    simp only [Option.some.injEq, Prod.mk.injEq, true_and] at h5
    subst h5
    obtain ⟨sp, h7, h8⟩ := run_cons_inv x _ _ _ _ h6
    simp only [step, Option.some.injEq, Prod.mk.injEq, true_and] at h7
    subst h7
    have dp : (closed x sb (start_tag arr) (end_tag arr)).end_container_iter.depth =
        s.depth := by
      show (sb.depth + 2 ^ 32 - 1) % 2 ^ 32 = s.depth
      rw [b1]
      omega
    obtain ⟨a1, a2, a3, a4, a5⟩ := ihr _ s' (by omega) h8
    rw [dp] at a1 a2 a3 a4
    have hoc : ∀ i, i ≤ s.depth →
        (closed x sb (start_tag arr) (end_tag arr)).end_container_iter.open_containers i =
          s.open_containers i := by
      intro i hi
      show sb.open_containers i = s.open_containers i
      rw [b2 i (by omega)]
      show Function.update s.open_containers ((s.depth + 1) % 2 ^ 32) _ i = _
      rw [hmod]
      exact Function.update_noteq (by omega) _ _
    have hia : ∀ i, i ≤ s.depth →
        (closed x sb (start_tag arr) (end_tag arr)).end_container_iter.is_array i =
          s.is_array i := by
      intro i hi
      show sb.is_array i = s.is_array i
      rw [b4 i (by omega)]
      show Function.update s.is_array ((s.depth + 1) % 2 ^ 32) _ i = _
      rw [hmod]
      exact Function.update_noteq (by omega) _ _
    have hloc : s.next_tape_loc ≤
        (closed x sb (start_tag arr) (end_tag arr)).end_container_iter.next_tape_loc := by
      show s.next_tape_loc ≤ sb.next_tape_loc + 1
      have : (opened s arr).next_tape_loc = s.next_tape_loc + 1 := rfl
      omega
    refine ⟨a1, ?_, ?_, ?_, by omega⟩
    · intro i hi
      rw [a2 i hi, hoc i (by omega)]
    · rw [a3, hoc s.depth (Nat.le_refl _)]
    · intro i hi
      rw [a4 i hi, hia i hi]

theorem cntsat_eq_min (c : Nat) : cntsat c = min c 0xFFFFFF := by
  unfold cntsat
  split <;> omega

theorem count_succ_iterate (k : Nat) : ∀ c : Nat, c + k < 2 ^ 32 → count_succ^[k] c = c + k := by
  induction k with
  | zero => intro c _; rfl
  | succ n ih =>
    intro c h
    have h1 : count_succ c = c + 1 := Nat.mod_eq_of_lt (by omega)
    rw [Function.iterate_succ, Function.comp_apply, h1, ih (c + 1) (by omega)]
    omega

theorem start_word_fields (x : externals) (i c : Nat) (t : tape_type) (hi : i < 2 ^ 32)
    (hc : c < 2 ^ 24) :
    tape_index_field (tape_word x (i ||| (c <<< 32)) t) = i ∧
    tape_count_field (tape_word x (i ||| (c <<< 32)) t) = c ∧
    tape_tag (tape_word x (i ||| (c <<< 32)) t) = (x.tag t).val := by
  have e : i ||| (c <<< 32) = i + c * 2 ^ 32 := lor_shiftLeft_of_lt i c 32 hi
  rw [e]
  refine ⟨?_, ?_, tape_tag_word x _ t (by omega)⟩
  · simp only [tape_index_field, tape_payload_word]
    omega
  · simp only [tape_count_field, tape_payload_word]
    omega

theorem container_run (x : externals) (hM : x.max_depth < 2 ^ 32) (s : tape_builder)
    (arr : Bool) (k : Nat) (body : List event) (hw : well_nested k body)
    (hrun : (run x (open_event arr :: body) s).map Prod.fst = some SUCCESS) :
    ∃ sb, run x (open_event arr :: body) s = some (SUCCESS, sb) ∧
      step x sb (close_event arr) = some (SUCCESS, closed x sb (start_tag arr) (end_tag arr)) ∧
      sb.depth = (s.depth + 1) % 2 ^ 32 ∧
      sb.open_containers sb.depth =
        open_container.mk (s.next_tape_loc % 2 ^ 32) (count_succ^[k] 1) ∧
      s.next_tape_loc < sb.next_tape_loc := by
  obtain ⟨sb, hb⟩ := run_of_code x _ _ hrun
  obtain ⟨s1, h1, h2⟩ := run_cons_inv x _ _ s sb hb
  rw [step_open_event] at h1
  obtain ⟨hlt, rfl⟩ := start_scope_inv x s s1 arr h1
  have d1 : (opened s arr).depth = (s.depth + 1) % 2 ^ 32 := rfl
  obtain ⟨a1, -, a3, -, a5⟩ :=
    well_nested_frame x hM k body hw (opened s arr) sb (by rw [d1]; exact hlt) h2
  have hloc : (opened s arr).next_tape_loc = s.next_tape_loc + 1 := rfl
  refine ⟨sb, hb, ?_, by rw [a1, d1], ?_, by omega⟩
  · rw [step_close_event]
    exact end_container_eq x sb _ _ (by rw [a1, d1]; exact hlt)
  · rw [a1, a3]
    simp only [opened, Function.update_same]

/-- C1, as stated, fails: for `[1]` the array's start slot is 1 and, after the two number
slots, its end entry is written at slot 4; after `end_array` the end entry's payload is 1,
but the end-index field of the start entry is 5, not 4. -/
theorem backpatch_end_index_counterexample :
    (run (sample_externals 8)
        [event.start_document, event.start_array, event.primitive [49, 93]]
        sample_memory.init).map (fun r => r.2.next_tape_loc) = some 4 ∧
    (run (sample_externals 8)
        [event.start_document, event.start_array, event.primitive [49, 93], event.end_array]
        sample_memory.init).map
      (fun r => (tape_index_field (r.2.doc_tape 1), tape_payload (r.2.doc_tape 4))) =
      some (5, 1) := by
  decide

/-- C1, amended. Let a container be opened by `start_object` or `start_array` with the
tape cursor at `s < 2^32` (depth limit below 2^32), let any well-nested calls follow, all
successful, and let the matching `end_object` or `end_array` write its end entry at slot
`e`. The close succeeds, `s < e`, the end entry at slot `e` has payload `s`, and the start
entry at slot `s` has the start tag and an end-index field equal to `(e + 1) mod 2^32`,
the slot after the end entry. -/
theorem backpatch_pairing (x : externals) (s : tape_builder) (arr : Bool) (k : Nat)
    (body : List event) (hM : x.max_depth < 2 ^ 32) (ht : s.next_tape_loc < 2 ^ 32)
    (hw : well_nested k body)
    (hrun : (run x (open_event arr :: body) s).map Prod.fst = some SUCCESS) :
    ∃ sb sc, run x (open_event arr :: body) s = some (SUCCESS, sb) ∧
      step x sb (close_event arr) = some (SUCCESS, sc) ∧
      s.next_tape_loc < sb.next_tape_loc ∧
      sc.next_tape_loc = sb.next_tape_loc + 1 ∧
      tape_tag (sc.doc_tape sb.next_tape_loc) = (x.tag (end_tag arr)).val ∧
      tape_payload (sc.doc_tape sb.next_tape_loc) = s.next_tape_loc ∧
      tape_tag (sc.doc_tape s.next_tape_loc) = (x.tag (start_tag arr)).val ∧
      tape_index_field (sc.doc_tape s.next_tape_loc) = (sb.next_tape_loc + 1) % 2 ^ 32 := by
  obtain ⟨sb, hb, hc, -, hrec, hlt⟩ := container_run x hM s arr k body hw hrun
  have hidx : s.next_tape_loc % 2 ^ 32 = s.next_tape_loc := Nat.mod_eq_of_lt ht
  rw [hidx] at hrec
  have hne : sb.next_tape_loc ≠ s.next_tape_loc := by omega
  have hsat : cntsat (count_succ^[k] 1) < 2 ^ 24 := by
    rw [cntsat_eq_min]
    omega
  obtain ⟨f1, -, f3⟩ := start_word_fields x ((sb.next_tape_loc + 1) % 2 ^ 32)
    (cntsat (count_succ^[k] 1)) (start_tag arr) (Nat.mod_lt _ (by decide)) hsat
  refine ⟨sb, _, hb, hc, hlt, rfl, ?_, ?_, ?_, ?_⟩
  · simp only [closed, hrec, Function.update_noteq hne, Function.update_same]
    exact tape_tag_word x _ _ (by omega)
  · simp only [closed, hrec, Function.update_noteq hne, Function.update_same,
      tape_payload_word]
    omega
  · simp only [closed, hrec, Function.update_same]
    exact f3
  · simp only [closed, hrec, Function.update_same]
    exact f1

/-- C1, amended, instance: the array `[1,2]` opened with the tape cursor at slot 1. -/
theorem backpatch_pairing_witness :
    ((sample_externals 8).max_depth < 2 ^ 32 ∧
      ({ sample_memory with next_tape_loc := 1 } : tape_builder).next_tape_loc < 2 ^ 32 ∧
      (run (sample_externals 8)
        (open_event true ::
          [event.primitive [49, 44, 50, 93], event.next_array_element,
            event.primitive [50, 93]])
        { sample_memory with next_tape_loc := 1 }).map Prod.fst = some SUCCESS) ∧
    ∃ sb sc, run (sample_externals 8)
        (open_event true ::
          [event.primitive [49, 44, 50, 93], event.next_array_element,
            event.primitive [50, 93]])
        { sample_memory with next_tape_loc := 1 } = some (SUCCESS, sb) ∧
      step (sample_externals 8) sb (close_event true) = some (SUCCESS, sc) ∧
      1 < sb.next_tape_loc ∧
      sc.next_tape_loc = sb.next_tape_loc + 1 ∧
      tape_tag (sc.doc_tape sb.next_tape_loc) = ((sample_externals 8).tag (end_tag true)).val ∧
      tape_payload (sc.doc_tape sb.next_tape_loc) = 1 ∧
      tape_tag (sc.doc_tape 1) = ((sample_externals 8).tag (start_tag true)).val ∧
      tape_index_field (sc.doc_tape 1) = (sb.next_tape_loc + 1) % 2 ^ 32 :=
  ⟨by decide,
   backpatch_pairing (sample_externals 8) { sample_memory with next_tape_loc := 1 } true 1
     [event.primitive [49, 44, 50, 93], event.next_array_element, event.primitive [50, 93]]
     (by decide) (by decide)
     (well_nested.value _ _ _ rfl
       (well_nested.separator _ _ _ rfl (well_nested.value _ _ _ rfl well_nested.nil)))
     (by decide)⟩

/-- C2. Let a container be opened by `start_object` or `start_array` with the tape cursor
at `s < 2^32` (depth limit below 2^32) and be followed by well-nested calls, all
successful, of which `k` are `next_field` or `next_array_element` at the container's own
depth, with `k + 1 < 2^32`. The matching close succeeds and the count field (payload bits
32..55) of the start entry it writes at slot `s` is `min (k + 1) 0xFFFFFF`; with
`k + 1 = 16777217` children that is `0xFFFFFF`. -/
theorem child_count_saturates (x : externals) (s : tape_builder) (arr : Bool) (k : Nat)
    (body : List event) (hM : x.max_depth < 2 ^ 32) (ht : s.next_tape_loc < 2 ^ 32)
    (hk : k + 1 < 2 ^ 32) (hw : well_nested k body)
    (hrun : (run x (open_event arr :: body) s).map Prod.fst = some SUCCESS) :
    ∃ sb sc, run x (open_event arr :: body) s = some (SUCCESS, sb) ∧
      step x sb (close_event arr) = some (SUCCESS, sc) ∧
      tape_count_field (sc.doc_tape s.next_tape_loc) = min (k + 1) 0xFFFFFF ∧
      (k + 1 = 16777217 → tape_count_field (sc.doc_tape s.next_tape_loc) = 0xFFFFFF) := by
  obtain ⟨sb, hb, hc, -, hrec, -⟩ := container_run x hM s arr k body hw hrun
  have hidx : s.next_tape_loc % 2 ^ 32 = s.next_tape_loc := Nat.mod_eq_of_lt ht
  rw [hidx, count_succ_iterate k 1 (by omega)] at hrec
  have hsat : cntsat (1 + k) < 2 ^ 24 := by
    rw [cntsat_eq_min]
    omega
  obtain ⟨-, f2, -⟩ := start_word_fields x ((sb.next_tape_loc + 1) % 2 ^ 32)
    (cntsat (1 + k)) (start_tag arr) (Nat.mod_lt _ (by decide)) hsat
  have hcount : tape_count_field ((closed x sb (start_tag arr) (end_tag arr)).doc_tape
      s.next_tape_loc) = min (k + 1) 0xFFFFFF := by
    simp only [closed, hrec, Function.update_same]
    rw [f2, cntsat_eq_min, Nat.add_comm 1 k]
  refine ⟨sb, _, hb, hc, hcount, ?_⟩
  intro h
  rw [hcount, h]
  rfl

/-- C2, instance: the array `[1,2]`, one separator, two children. -/
theorem child_count_saturates_witness :
    ((sample_externals 8).max_depth < 2 ^ 32 ∧
      ({ sample_memory with next_tape_loc := 1 } : tape_builder).next_tape_loc < 2 ^ 32 ∧
      1 + 1 < 2 ^ 32 ∧
      (run (sample_externals 8)
        (open_event true ::
          [event.primitive [49, 44, 50, 93], event.next_array_element,
            event.primitive [50, 93]])
        { sample_memory with next_tape_loc := 1 }).map Prod.fst = some SUCCESS) ∧
    ∃ sb sc, run (sample_externals 8)
        (open_event true ::
          [event.primitive [49, 44, 50, 93], event.next_array_element,
            event.primitive [50, 93]])
        { sample_memory with next_tape_loc := 1 } = some (SUCCESS, sb) ∧
      step (sample_externals 8) sb (close_event true) = some (SUCCESS, sc) ∧
      tape_count_field (sc.doc_tape 1) = min (1 + 1) 0xFFFFFF ∧
      (1 + 1 = 16777217 → tape_count_field (sc.doc_tape 1) = 0xFFFFFF) :=
  ⟨by decide,
   child_count_saturates (sample_externals 8) { sample_memory with next_tape_loc := 1 } true 1
     [event.primitive [49, 44, 50, 93], event.next_array_element, event.primitive [50, 93]]
     (by decide) (by decide) (by decide)
     (well_nested.value _ _ _ rfl
       (well_nested.separator _ _ _ rfl (well_nested.value _ _ _ rfl well_nested.nil)))
     (by decide)⟩

/-! ## Value dispatch -/

theorem parse_string_code (x : externals) (s : tape_builder) (value : List byte) (k : Bool) :
    ∃ r s', s.parse_string x value k = some (r, s') ∧ r ≠ TAPE_ERROR := by
  cases hdec : x.parse_string value with
  | none => exact ⟨_, _, parse_string_none x s value k hdec, by decide⟩
  | some b => exact ⟨_, _, parse_string_eq x s value b k hdec, by decide⟩

theorem atom_code (x : externals) (s : tape_builder) (ok : Bool) (err : error_code)
    (t : tape_type) (herr : err ≠ TAPE_ERROR) :
    ∃ r s', (if ok = false then some (err, s)
      else some (SUCCESS, tape_writer.append x s 0 t)) = some (r, s') ∧ r ≠ TAPE_ERROR := by
  cases ok
  · exact ⟨err, s, rfl, herr⟩
  · exact ⟨SUCCESS, _, rfl, by decide⟩

theorem parse_number_code (x : externals) (s : tape_builder) (value : List byte) :
    ∃ r s', s.parse_number x value = some (r, s') ∧ r ≠ TAPE_ERROR := by
  cases hdec : x.parse_number value with
  | none =>
    refine ⟨NUMBER_ERROR, s, ?_, by decide⟩
    unfold tape_builder.parse_number tape_builder.numberparsing_parse_number
    simp only [hdec]
  | some ws => exact ⟨_, _, parse_number_ok x s value ws hdec, by decide⟩

theorem parse_root_number_code (x : externals) (s : tape_builder) (iter : json_iterator)
    (value : List byte) :
    ∃ r s', s.parse_root_number x iter value = some (r, s') ∧ r ≠ TAPE_ERROR := by
  unfold tape_builder.parse_root_number
  split
  · exact ⟨MEMALLOC, s, rfl, by decide⟩
  · exact parse_number_code x s _

theorem number_start_iff (c : byte) :
    tape_builder.is_number_start c = true ↔ (c.val = 45 ∨ (48 ≤ c.val ∧ c.val ≤ 57)) := by
  unfold tape_builder.is_number_start
  simp only [Bool.or_eq_true, Bool.and_eq_true, decide_eq_true_eq]

theorem primitive_code (x : externals) (s : tape_builder) (c : byte) (rest : List byte) :
    ∃ r s', s.primitive x (c :: rest) = some (r, s') ∧
      (r = TAPE_ERROR ↔
        ¬ (c.val = 34 ∨ c.val = 116 ∨ c.val = 102 ∨ c.val = 110 ∨ c.val = 45 ∨
          (48 ≤ c.val ∧ c.val ≤ 57))) ∧
      (r = TAPE_ERROR → s' = s) := by
  unfold tape_builder.primitive
  by_cases h1 : c.val = 34
  · obtain ⟨r, s', h, hne⟩ := parse_string_code x s (c :: rest) false
    refine ⟨r, s', by simp only [if_pos h1]; exact h, ?_, fun e => absurd e hne⟩
    exact ⟨fun e => absurd e hne, fun hn => absurd (Or.inl h1) hn⟩
  by_cases h2 : c.val = 116
  · obtain ⟨r, s', h, hne⟩ := atom_code x s (x.is_valid_true_atom (c :: rest)) T_ATOM_ERROR
      TRUE_VALUE (by decide)
    refine ⟨r, s', by simp only [if_neg h1, if_pos h2]; exact h, ?_, fun e => absurd e hne⟩
    exact ⟨fun e => absurd e hne, fun hn => absurd (Or.inr (Or.inl h2)) hn⟩
  by_cases h3 : c.val = 102
  · obtain ⟨r, s', h, hne⟩ := atom_code x s (x.is_valid_false_atom (c :: rest)) F_ATOM_ERROR
      FALSE_VALUE (by decide)
    refine ⟨r, s', by simp only [if_neg h1, if_neg h2, if_pos h3]; exact h, ?_,
      fun e => absurd e hne⟩
    exact ⟨fun e => absurd e hne, fun hn => absurd (Or.inr (Or.inr (Or.inl h3))) hn⟩
  by_cases h4 : c.val = 110
  · obtain ⟨r, s', h, hne⟩ := atom_code x s (x.is_valid_null_atom (c :: rest)) N_ATOM_ERROR
      NULL_VALUE (by decide)
    refine ⟨r, s', by simp only [if_neg h1, if_neg h2, if_neg h3, if_pos h4]; exact h, ?_,
      fun e => absurd e hne⟩
    exact ⟨fun e => absurd e hne, fun hn => absurd (Or.inr (Or.inr (Or.inr (Or.inl h4)))) hn⟩
  by_cases h5 : tape_builder.is_number_start c = true
  · obtain ⟨r, s', h, hne⟩ := parse_number_code x s (c :: rest)
    refine ⟨r, s', by simp only [if_neg h1, if_neg h2, if_neg h3, if_neg h4, if_pos h5]; exact h,
      ?_, fun e => absurd e hne⟩
    refine ⟨fun e => absurd e hne, fun hn => absurd ?_ hn⟩
    rcases (number_start_iff c).mp h5 with h | h
    · exact Or.inr (Or.inr (Or.inr (Or.inr (Or.inl h))))
    · exact Or.inr (Or.inr (Or.inr (Or.inr (Or.inr h))))
  · refine ⟨TAPE_ERROR, s, by simp only [if_neg h1, if_neg h2, if_neg h3, if_neg h4, if_neg h5],
      ?_, fun _ => rfl⟩
    refine ⟨fun _ => ?_, fun _ => rfl⟩
    intro hP
    apply h5
    rw [number_start_iff]
    rcases hP with h | h | h | h | h | h
    · exact absurd h h1
    · exact absurd h h2
    · exact absurd h h3
    · exact absurd h h4
    · exact Or.inl h
    · exact Or.inr h

theorem root_primitive_code (x : externals) (s : tape_builder) (iter : json_iterator)
    (c : byte) (rest : List byte) :
    ∃ r s', s.root_primitive x iter (c :: rest) = some (r, s') ∧
      (r = TAPE_ERROR ↔
        ¬ (c.val = 34 ∨ c.val = 116 ∨ c.val = 102 ∨ c.val = 110 ∨ c.val = 45 ∨
          (48 ≤ c.val ∧ c.val ≤ 57))) ∧
      (r = TAPE_ERROR → s' = s) := by
  unfold tape_builder.root_primitive
  by_cases h1 : c.val = 34
  · obtain ⟨r, s', h, hne⟩ := parse_string_code x s (c :: rest) false
    refine ⟨r, s', by simp only [if_pos h1]; exact h, ?_, fun e => absurd e hne⟩
    exact ⟨fun e => absurd e hne, fun hn => absurd (Or.inl h1) hn⟩
  by_cases h2 : c.val = 116
  · obtain ⟨r, s', h, hne⟩ := atom_code x s
      (x.is_valid_true_atom_len (c :: rest) iter.remaining_len) T_ATOM_ERROR TRUE_VALUE
      (by decide)
    refine ⟨r, s', by simp only [if_neg h1, if_pos h2]; exact h, ?_, fun e => absurd e hne⟩
    exact ⟨fun e => absurd e hne, fun hn => absurd (Or.inr (Or.inl h2)) hn⟩
  by_cases h3 : c.val = 102
  · obtain ⟨r, s', h, hne⟩ := atom_code x s
      (x.is_valid_false_atom_len (c :: rest) iter.remaining_len) F_ATOM_ERROR FALSE_VALUE
      (by decide)
    refine ⟨r, s', by simp only [if_neg h1, if_neg h2, if_pos h3]; exact h, ?_,
      fun e => absurd e hne⟩
    exact ⟨fun e => absurd e hne, fun hn => absurd (Or.inr (Or.inr (Or.inl h3))) hn⟩
  by_cases h4 : c.val = 110
  · obtain ⟨r, s', h, hne⟩ := atom_code x s
      (x.is_valid_null_atom_len (c :: rest) iter.remaining_len) N_ATOM_ERROR NULL_VALUE
      (by decide)
    refine ⟨r, s', by simp only [if_neg h1, if_neg h2, if_neg h3, if_pos h4]; exact h, ?_,
      fun e => absurd e hne⟩
    exact ⟨fun e => absurd e hne, fun hn => absurd (Or.inr (Or.inr (Or.inr (Or.inl h4)))) hn⟩
  by_cases h5 : tape_builder.is_number_start c = true
  · obtain ⟨r, s', h, hne⟩ := parse_root_number_code x s iter (c :: rest)
    refine ⟨r, s', by simp only [if_neg h1, if_neg h2, if_neg h3, if_neg h4, if_pos h5]; exact h,
      ?_, fun e => absurd e hne⟩
    refine ⟨fun e => absurd e hne, fun hn => absurd ?_ hn⟩
    rcases (number_start_iff c).mp h5 with h | h
    · exact Or.inr (Or.inr (Or.inr (Or.inr (Or.inl h))))
    · exact Or.inr (Or.inr (Or.inr (Or.inr (Or.inr h))))
  · refine ⟨TAPE_ERROR, s, by simp only [if_neg h1, if_neg h2, if_neg h3, if_neg h4, if_neg h5],
      ?_, fun _ => rfl⟩
    refine ⟨fun _ => ?_, fun _ => rfl⟩
    intro hP
    apply h5
    rw [number_start_iff]
    rcases hP with h | h | h | h | h | h
    · exact absurd h h1
    · exact absurd h h2
    · exact absurd h h3
    · exact absurd h h4
    · exact Or.inl h
    · exact Or.inr h

/-- C11. For every leading byte `c`, every rest of the input, every builder state and
whatever the decoders, validators and allocator answer, `primitive` and `root_primitive`
return a result, and that result is `TAPE_ERROR` exactly when `c` is none of `"` (34),
`t` (116), `f` (102), `n` (110), `-` (45) and `0`..`9` (48..57); in that case the whole
builder state (tape, both cursors, string buffer, depth, open containers) is unchanged.
The two variants therefore reject the same leading bytes. -/
theorem value_dispatch (x : externals) (s : tape_builder) (iter : json_iterator) (c : byte)
    (rest : List byte) :
    ∃ r1 s1 r2 s2, s.primitive x (c :: rest) = some (r1, s1) ∧
      s.root_primitive x iter (c :: rest) = some (r2, s2) ∧
      (r1 = TAPE_ERROR ↔
        ¬ (c.val = 34 ∨ c.val = 116 ∨ c.val = 102 ∨ c.val = 110 ∨ c.val = 45 ∨
          (48 ≤ c.val ∧ c.val ≤ 57))) ∧
      (r2 = TAPE_ERROR ↔
        ¬ (c.val = 34 ∨ c.val = 116 ∨ c.val = 102 ∨ c.val = 110 ∨ c.val = 45 ∨
          (48 ≤ c.val ∧ c.val ≤ 57))) ∧
      (r1 = TAPE_ERROR ↔ r2 = TAPE_ERROR) ∧
      (r1 = TAPE_ERROR → s1 = s) ∧ (r2 = TAPE_ERROR → s2 = s) := by
  obtain ⟨r1, s1, e1, i1, u1⟩ := primitive_code x s c rest
  obtain ⟨r2, s2, e2, i2, u2⟩ := root_primitive_code x s iter c rest
  exact ⟨r1, s1, r2, s2, e1, e2, i1, i2, i1.trans i2.symm, u1, u2⟩

/-- C11, instance: the leading byte `x` (120) with the sample collaborators. -/
theorem value_dispatch_witness :
    (sample_memory.primitive (sample_externals 8) [120, 49]).map Prod.fst = some TAPE_ERROR ∧
    (sample_memory.root_primitive (sample_externals 8) ⟨2, 0⟩ [120, 49]).map Prod.fst =
      some TAPE_ERROR := by
  obtain ⟨r1, s1, r2, s2, e1, e2, i1, i2, -, -, -⟩ :=
    value_dispatch (sample_externals 8) sample_memory ⟨2, 0⟩ 120 [49]
  rw [e1, e2]
  exact ⟨congrArg some (i1.mpr (by decide)), congrArg some (i2.mpr (by decide))⟩

/-! ## Literals, keys and failing strings -/

theorem literal_entry (x : externals) (s : tape_builder) (t : tape_type) :
    tape_writer.append x s 0 t =
      { s with doc_tape := Function.update s.doc_tape s.next_tape_loc (tape_word x 0 t),
               next_tape_loc := s.next_tape_loc + 1 } ∧
    tape_payload (tape_word x 0 t) = 0 ∧ tape_tag (tape_word x 0 t) = (x.tag t).val :=
  ⟨rfl, (tape_payload_word x 0 t).trans (Nat.zero_mod _), tape_tag_word x 0 t (by decide)⟩

theorem atom_eq (x : externals) (s : tape_builder) (ok : Bool) (err : error_code)
    (t : tape_type) :
    (if ok = false then some (err, s) else some (SUCCESS, tape_writer.append x s 0 t)) =
      (if ok = true then some (SUCCESS, tape_writer.append x s 0 t) else some (err, s)) := by
  cases ok <;> rfl

/-- C12. When `primitive` or `root_primitive` dispatches on `t` (116), `f` (102) or `n`
(110): if the corresponding validator accepts, the result is `SUCCESS` and the state is the
old one with exactly one entry appended (`tape.append(0, type)`, type TRUE, FALSE or NULL
respectively); if it rejects, the result is `T_ATOM_ERROR`, `F_ATOM_ERROR` or
`N_ATOM_ERROR` respectively and the state is unchanged. The appended entry has payload 0
and the tag of its type, sits at the old tape cursor, and the cursor advances by one while
nothing else changes. -/
theorem literal_atoms (x : externals) (s : tape_builder) (iter : json_iterator)
    (rest : List byte) :
    s.primitive x (116 :: rest) =
      (if x.is_valid_true_atom (116 :: rest) = true
        then some (SUCCESS, tape_writer.append x s 0 TRUE_VALUE)
        else some (T_ATOM_ERROR, s)) ∧
    s.primitive x (102 :: rest) =
      (if x.is_valid_false_atom (102 :: rest) = true
        then some (SUCCESS, tape_writer.append x s 0 FALSE_VALUE)
        else some (F_ATOM_ERROR, s)) ∧
    s.primitive x (110 :: rest) =
      (if x.is_valid_null_atom (110 :: rest) = true
        then some (SUCCESS, tape_writer.append x s 0 NULL_VALUE)
        else some (N_ATOM_ERROR, s)) ∧
    s.root_primitive x iter (116 :: rest) =
      (if x.is_valid_true_atom_len (116 :: rest) iter.remaining_len = true
        then some (SUCCESS, tape_writer.append x s 0 TRUE_VALUE)
        else some (T_ATOM_ERROR, s)) ∧
    s.root_primitive x iter (102 :: rest) =
      (if x.is_valid_false_atom_len (102 :: rest) iter.remaining_len = true
        then some (SUCCESS, tape_writer.append x s 0 FALSE_VALUE)
        else some (F_ATOM_ERROR, s)) ∧
    s.root_primitive x iter (110 :: rest) =
      (if x.is_valid_null_atom_len (110 :: rest) iter.remaining_len = true
        then some (SUCCESS, tape_writer.append x s 0 NULL_VALUE)
        else some (N_ATOM_ERROR, s)) ∧
    (∀ t : tape_type,
      tape_writer.append x s 0 t =
        { s with doc_tape := Function.update s.doc_tape s.next_tape_loc (tape_word x 0 t),
                 next_tape_loc := s.next_tape_loc + 1 } ∧
      tape_payload (tape_word x 0 t) = 0 ∧ tape_tag (tape_word x 0 t) = (x.tag t).val) := by
  have n1 : ¬ ((116 : byte).val = 34) := by decide
  have n2 : ¬ ((102 : byte).val = 34) := by decide
  have n3 : ¬ ((102 : byte).val = 116) := by decide
  have n4 : ¬ ((110 : byte).val = 34) := by decide
  have n5 : ¬ ((110 : byte).val = 116) := by decide
  have n6 : ¬ ((110 : byte).val = 102) := by decide
  have p1 : (116 : byte).val = 116 := by decide
  have p2 : (102 : byte).val = 102 := by decide
  have p3 : (110 : byte).val = 110 := by decide
  refine ⟨?_, ?_, ?_, ?_, ?_, ?_, fun t => literal_entry x s t⟩
  · simp only [tape_builder.primitive, if_neg n1, if_pos p1, tape_builder.parse_true_atom]
    exact atom_eq x s _ _ _
  · simp only [tape_builder.primitive, if_neg n2, if_neg n3, if_pos p2,
      tape_builder.parse_false_atom]
    exact atom_eq x s _ _ _
  · simp only [tape_builder.primitive, if_neg n4, if_neg n5, if_neg n6, if_pos p3,
      tape_builder.parse_null_atom]
    exact atom_eq x s _ _ _
  · simp only [tape_builder.root_primitive, if_neg n1, if_pos p1,
      tape_builder.parse_root_true_atom]
    exact atom_eq x s _ _ _
  · simp only [tape_builder.root_primitive, if_neg n2, if_neg n3, if_pos p2,
      tape_builder.parse_root_false_atom]
    exact atom_eq x s _ _ _
  · simp only [tape_builder.root_primitive, if_neg n4, if_neg n5, if_neg n6, if_pos p3,
      tape_builder.parse_root_null_atom]
    exact atom_eq x s _ _ _

/-- C14. On every builder state and every input whose leading byte is `"` (34), `key`
returns the same result code and leaves the same state (tape, tape cursor, string buffer,
string-buffer cursor and all the rest) as `primitive`, which parses it as a string; both
are `parse_string`, whose flag selects the log label only. -/
theorem key_is_string_parse (x : externals) (s : tape_builder) (rest : List byte) :
    s.key x (34 :: rest) = s.primitive x (34 :: rest) ∧
    s.key x (34 :: rest) = s.parse_string x (34 :: rest) true ∧
    s.parse_string x (34 :: rest) true = s.parse_string x (34 :: rest) false := by
  have p : (34 : byte).val = 34 := by decide
  refine ⟨?_, rfl, rfl⟩
  simp only [tape_builder.primitive, if_pos p]
  rfl

/-- C20. When the string decoder fails on the input of a string parse (a `key`, or a
`primitive` or `root_primitive` on a leading `"`), on a builder whose string-buffer cursor
is below 2^56, the call returns `STRING_ERROR`; the tape cursor has advanced by exactly
one, the slot it passed holds a STRING entry whose payload is the string-buffer cursor,
and the string-buffer cursor, the string buffer, the depth, the open-container array and
the flags are unchanged. -/
theorem string_failure_appends_entry (x : externals) (s : tape_builder) (e : event)
    (value : List byte) (hs : e.string_value = some value)
    (hdec : x.parse_string value = none) (hcur : s.current_string_buf_loc < 2 ^ 56) :
    ∃ s', step x s e = some (STRING_ERROR, s') ∧
      s'.next_tape_loc = s.next_tape_loc + 1 ∧
      tape_tag (s'.doc_tape s.next_tape_loc) = (x.tag STRING).val ∧
      tape_payload (s'.doc_tape s.next_tape_loc) = s.current_string_buf_loc ∧
      s'.current_string_buf_loc = s.current_string_buf_loc ∧
      s'.doc_string_buf = s.doc_string_buf ∧
      s'.depth = s.depth ∧ s'.open_containers = s.open_containers ∧
      s'.is_array = s.is_array := by
  obtain ⟨k, hk⟩ := string_event_step x s e value hs
  refine ⟨tape_writer.append x s s.current_string_buf_loc STRING,
    by rw [hk]; exact parse_string_none x s value k hdec, rfl, ?_, ?_, rfl, rfl, rfl, rfl, rfl⟩
  · simp only [tape_writer.append, Function.update_same]
    exact tape_tag_word x _ STRING hcur
  · simp only [tape_writer.append, Function.update_same, tape_payload_word]
    omega

/-- C20, instance: a key without its closing quote, which the sample string decoder
rejects. -/
theorem string_failure_appends_entry_witness :
    ((event.key [34, 97]).string_value = some [34, 97] ∧
      (sample_externals 8).parse_string [34, 97] = none ∧
      sample_memory.current_string_buf_loc < 2 ^ 56) ∧
    ∃ s', step (sample_externals 8) sample_memory (event.key [34, 97]) =
        some (STRING_ERROR, s') ∧
      s'.next_tape_loc = sample_memory.next_tape_loc + 1 ∧
      tape_tag (s'.doc_tape sample_memory.next_tape_loc) =
        ((sample_externals 8).tag STRING).val ∧
      tape_payload (s'.doc_tape sample_memory.next_tape_loc) =
        sample_memory.current_string_buf_loc ∧
      s'.current_string_buf_loc = sample_memory.current_string_buf_loc ∧
      s'.doc_string_buf = sample_memory.doc_string_buf ∧
      s'.depth = sample_memory.depth ∧
      s'.open_containers = sample_memory.open_containers ∧
      s'.is_array = sample_memory.is_array :=
  ⟨by decide,
   string_failure_appends_entry (sample_externals 8) sample_memory (event.key [34, 97])
     [34, 97] (by decide) (by decide) (by decide)⟩

/-! ## Closing a container and popping its level -/

theorem end_call_eq (x : externals) (s : tape_builder) (arr : Bool)
    (h : s.depth < x.max_depth) :
    (if arr then s.end_array x else s.end_object x) =
      some (SUCCESS, closed x s (start_tag arr) (end_tag arr)) := by
  cases arr
  · exact end_container_eq x s _ _ h
  · exact end_container_eq x s _ _ h

theorem pop_depth (s : tape_builder) (h1 : 1 ≤ s.depth) (h2 : s.depth < 2 ^ 32) :
    s.end_container_iter.depth = s.depth - 1 := by
  show (s.depth + 2 ^ 32 - 1) % 2 ^ 32 = s.depth - 1
  omega

/-- C13, as stated, fails: after `start_document` and `start_array` the depth is 1, and
after the following `end_array` it is still 1, not 0. -/
theorem end_array_depth_counterexample :
    (run (sample_externals 8) [event.start_document, event.start_array]
        sample_memory.init).map (fun r => (r.1, r.2.depth)) = some (SUCCESS, 1) ∧
    (run (sample_externals 8) [event.start_document, event.start_array, event.end_array]
        sample_memory.init).map (fun r => (r.1, r.2.depth)) = some (SUCCESS, 1) := by
  decide

/-- C13, amended. For a builder at depth `d` with `1 ≤ d`, `d` below the depth limit and
below 2^32, `end_object` and `end_array` succeed and leave the depth at `d`; the
one-argument `end_container`, which the driver calls after them, brings it to `d - 1`. -/
theorem end_then_pop_depth (x : externals) (s : tape_builder) (arr : Bool)
    (h1 : 1 ≤ s.depth) (h2 : s.depth < x.max_depth) (h3 : s.depth < 2 ^ 32) :
    ∃ s', (if arr then s.end_array x else s.end_object x) = some (SUCCESS, s') ∧
      s'.depth = s.depth ∧
      step x s' event.end_container = some (SUCCESS, s'.end_container_iter) ∧
      s'.end_container_iter.depth = s.depth - 1 :=
  ⟨closed x s (start_tag arr) (end_tag arr), end_call_eq x s arr h2, rfl, rfl,
    pop_depth (closed x s (start_tag arr) (end_tag arr)) h1 h3⟩

/-- C13, amended, instance: `end_array` at depth 1 with depth limit 8. -/
theorem end_then_pop_depth_witness :
    (1 ≤ ({ sample_memory with depth := 1 } : tape_builder).depth ∧
      ({ sample_memory with depth := 1 } : tape_builder).depth < (sample_externals 8).max_depth ∧
      ({ sample_memory with depth := 1 } : tape_builder).depth < 2 ^ 32) ∧
    ∃ s', (if true then tape_builder.end_array (sample_externals 8) { sample_memory with depth := 1 }
        else tape_builder.end_object (sample_externals 8) { sample_memory with depth := 1 }) =
        some (SUCCESS, s') ∧
      s'.depth = 1 ∧
      step (sample_externals 8) s' event.end_container = some (SUCCESS, s'.end_container_iter) ∧
      s'.end_container_iter.depth = 1 - 1 :=
  ⟨by decide,
   end_then_pop_depth (sample_externals 8) { sample_memory with depth := 1 } true (by decide)
     (by decide) (by decide)⟩

/-- C17. The start entry `end_object` and `end_array` write (depth in bounds) sits at the
recorded start slot; its low 32 bits are the end-position index, the 32-bit tape index
after the end entry; its bits 32..55 are `min c 0xFFFFFF` for the recorded child count
`c`; its top 8 bits are the start tag. In general, for every index `i < 2^32`, every count
`c` and every type `t`, the word for `i | (cntsat c << 32)` and `t` is the sum
`i + min c 0xFFFFFF * 2^32 + tag t * 2^56` of three fields that do not overlap, and
masking and shifting return `i`, `min c 0xFFFFFF` and the tag of `t`. -/
theorem start_entry_layout (x : externals) (s : tape_builder) (arr : Bool)
    (hd : s.depth < x.max_depth) :
    (∃ s', (if arr then s.end_array x else s.end_object x) = some (SUCCESS, s') ∧
      tape_index_field (s'.doc_tape (s.open_containers s.depth).tape_index) =
        (s.next_tape_loc + 1) % 2 ^ 32 ∧
      tape_count_field (s'.doc_tape (s.open_containers s.depth).tape_index) =
        min (s.open_containers s.depth).count 0xFFFFFF ∧
      tape_tag (s'.doc_tape (s.open_containers s.depth).tape_index) =
        (x.tag (if arr then START_ARRAY else START_OBJECT)).val) ∧
    (∀ (i c : Nat) (t : tape_type), i < 2 ^ 32 →
      tape_word x (i ||| (cntsat c <<< 32)) t =
        i + min c 0xFFFFFF * 2 ^ 32 + (x.tag t).val * 2 ^ 56 ∧
      tape_index_field (tape_word x (i ||| (cntsat c <<< 32)) t) = i ∧
      tape_count_field (tape_word x (i ||| (cntsat c <<< 32)) t) = min c 0xFFFFFF ∧
      tape_tag (tape_word x (i ||| (cntsat c <<< 32)) t) = (x.tag t).val) := by
  have hsat : ∀ c, cntsat c < 2 ^ 24 := by
    intro c
    rw [cntsat_eq_min]
    omega
  constructor
  · obtain ⟨f1, f2, f3⟩ := start_word_fields x ((s.next_tape_loc + 1) % 2 ^ 32)
      (cntsat (s.open_containers s.depth).count) (start_tag arr) (Nat.mod_lt _ (by decide))
      (hsat _)
    refine ⟨_, end_call_eq x s arr hd, ?_, ?_, ?_⟩
    · simp only [closed, Function.update_same]
      exact f1
    · simp only [closed, Function.update_same]
      rw [f2, cntsat_eq_min]
    · simp only [closed, Function.update_same]
      exact f3
  · intro i c t hi
    obtain ⟨f1, f2, f3⟩ := start_word_fields x i (cntsat c) t hi (hsat c)
    refine ⟨?_, f1, by rw [f2, cntsat_eq_min], f3⟩
    have e : i ||| (cntsat c <<< 32) = i + cntsat c * 2 ^ 32 := lor_shiftLeft_of_lt i _ 32 hi
    have hc := hsat c
    have hlt : i + cntsat c * 2 ^ 32 < 2 ^ 56 := by omega
    unfold tape_word
    rw [e, Nat.mod_eq_of_lt (by omega), lor_shiftLeft_of_lt _ _ 56 hlt, cntsat_eq_min]

/-- C17, instance: `end_array` at depth 1 with recorded count 0x2000000, which saturates. -/
theorem start_entry_layout_witness :
    (tape_builder.end_array (sample_externals 8)
        { sample_memory with
          depth := 1, next_tape_loc := 7,
          open_containers := fun _ => open_container.mk 3 0x2000000 }).map
      (fun r => (tape_index_field (r.2.doc_tape 3), tape_count_field (r.2.doc_tape 3),
        tape_tag (r.2.doc_tape 3))) = some (8, 0xFFFFFF, 91) := by
  obtain ⟨s', h, f1, f2, f3⟩ := (start_entry_layout (sample_externals 8)
    { sample_memory with
      depth := 1, next_tape_loc := 7,
      open_containers := fun _ => open_container.mk 3 0x2000000 } true (by decide)).1
  simp only [if_true] at h
  rw [h]
  simp only [Option.map_some']
  exact congrArg some (Prod.ext f1 (Prod.ext f2 f3))

/-! ## A child container and its parent -/

/-- C19. From a builder at depth `d` (with `d + 1 < 2^32` and a depth limit below 2^32),
let a child container be opened by `start_object` or `start_array`, filled with any
well-nested calls, closed by the matching end call and popped, all calls succeeding. The
final state has depth `d`, and at every depth up to `d` the open-container record (start
slot and child count) and the array flag are what they were; `in_array` and `in_object`
answer as before the child was opened. -/
theorem child_keeps_parent (x : externals) (s : tape_builder) (arr : Bool) (j : Nat)
    (body : List event) (hM : x.max_depth < 2 ^ 32) (hd : s.depth + 1 < 2 ^ 32)
    (hw : well_nested j body)
    (hrun : (run x (open_event arr :: (body ++ [close_event arr, event.end_container])) s).map
      Prod.fst = some SUCCESS) :
    ∃ s', run x (open_event arr :: (body ++ [close_event arr, event.end_container])) s =
        some (SUCCESS, s') ∧
      s'.depth = s.depth ∧
      (∀ i, i ≤ s.depth → s'.open_containers i = s.open_containers i) ∧
      (∀ i, i ≤ s.depth → s'.is_array i = s.is_array i) ∧
      s'.in_array x = s.in_array x ∧ s'.in_object x = s.in_object x ∧
      s'.in_container = s.in_container := by
  obtain ⟨s', hs'⟩ := run_of_code x _ _ hrun
  obtain ⟨s1, h1, -⟩ := run_cons_inv x _ _ s s' hs'
  rw [step_open_event] at h1
  obtain ⟨hlt, -⟩ := start_scope_inv x s s1 arr h1
  have hmod : (s.depth + 1) % 2 ^ 32 = s.depth + 1 := Nat.mod_eq_of_lt hd
  have hdM : s.depth < x.max_depth := by omega
  obtain ⟨a1, a2, a3, a4, -⟩ := well_nested_frame x hM 0 _
    (well_nested.container arr body [] j 0 hw well_nested.nil) s s' hdM hs'
  have hoc : ∀ i, i ≤ s.depth → s'.open_containers i = s.open_containers i := by
    intro i hi
    rcases Nat.lt_or_ge i s.depth with h | h
    · exact a2 i h
    · have : i = s.depth := by omega
      subst this
      rw [a3]
      rfl
  refine ⟨s', hs', a1, hoc, a4, ?_, ?_, ?_⟩
  · unfold tape_builder.in_array
    rw [a1, a4 s.depth (Nat.le_refl _)]
  · unfold tape_builder.in_object
    rw [a1, a4 s.depth (Nat.le_refl _)]
  · unfold tape_builder.in_container
    rw [a1]

/-- C19, instance: inside an object at depth 1 (start slot 1, count 2), the child array
`[1,2]` is opened, filled, closed and popped. -/
theorem child_keeps_parent_witness :
    ((sample_externals 8).max_depth < 2 ^ 32 ∧
      ({ sample_memory with
          depth := 1, next_tape_loc := 4,
          open_containers := fun _ => open_container.mk 1 2 } : tape_builder).depth + 1 <
        2 ^ 32) ∧
    ∃ s', run (sample_externals 8)
        (open_event true ::
          ([event.primitive [49, 44, 50, 93], event.next_array_element,
            event.primitive [50, 93]] ++ [close_event true, event.end_container]))
        { sample_memory with
          depth := 1, next_tape_loc := 4,
          open_containers := fun _ => open_container.mk 1 2 } = some (SUCCESS, s') ∧
      s'.depth = 1 ∧
      (∀ i, i ≤ 1 → s'.open_containers i = open_container.mk 1 2) ∧
      (∀ i, i ≤ 1 → s'.is_array i = false) ∧
      s'.in_array (sample_externals 8) = some false ∧
      s'.in_object (sample_externals 8) = some true ∧
      s'.in_container = true :=
  ⟨by decide,
   child_keeps_parent (sample_externals 8)
     { sample_memory with
       depth := 1, next_tape_loc := 4,
       open_containers := fun _ => open_container.mk 1 2 } true 1
     [event.primitive [49, 44, 50, 93], event.next_array_element, event.primitive [50, 93]]
     (by decide) (by decide)
     (well_nested.value _ _ _ rfl
       (well_nested.separator _ _ _ rfl (well_nested.value _ _ _ rfl well_nested.nil)))
     (by decide)⟩

/-! ## Cursors -/

theorem tape_kept_refl (s : tape_builder) : tape_kept s s := fun _ _ => rfl

theorem append_kept (x : externals) (s : tape_builder) (val : Nat) (t : tape_type) :
    tape_kept s (tape_writer.append x s val t) := by
  intro i hi
  show Function.update s.doc_tape s.next_tape_loc _ i = s.doc_tape i
  exact Function.update_noteq (by omega) _ _

theorem append_words_kept (ws : List Nat) : ∀ s : tape_builder,
    tape_kept s (tape_builder.append_words s ws) := by
  induction ws with
  | nil => intro s; exact tape_kept_refl s
  | cons w ws ih =>
    intro s i hi
    have h := ih
      { s with doc_tape := Function.update s.doc_tape s.next_tape_loc (w % 2 ^ 64),
               next_tape_loc := s.next_tape_loc + 1 } i (Nat.lt_succ_of_lt hi)
    show (tape_builder.append_words _ ws).doc_tape i = s.doc_tape i
    rw [h]
    exact Function.update_noteq (by omega) _ _

theorem atom_tape (x : externals) (s : tape_builder) (ok : Bool) (err : error_code)
    (t : tape_type) (r : error_code) (s' : tape_builder)
    (h : (if ok = false then some (err, s)
      else some (SUCCESS, tape_writer.append x s 0 t)) = some (r, s')) :
    tape_kept s s' ∧ (err ≠ SUCCESS → r = SUCCESS → s'.next_tape_loc = s.next_tape_loc + 1) := by
  split at h
  · simp only [Option.some.injEq, Prod.mk.injEq] at h
    obtain ⟨rfl, rfl⟩ := h
    exact ⟨tape_kept_refl s, fun h1 h2 => absurd h2 h1⟩
  · simp only [Option.some.injEq, Prod.mk.injEq] at h
    obtain ⟨-, rfl⟩ := h
    exact ⟨append_kept x s 0 t, fun _ _ => rfl⟩

theorem parse_number_tape (x : externals) (s : tape_builder) (value : List byte)
    (r : error_code) (s' : tape_builder) (h : s.parse_number x value = some (r, s')) :
    tape_kept s s' := by
  cases hdec : x.parse_number value with
  | none =>
    unfold tape_builder.parse_number tape_builder.numberparsing_parse_number at h
    simp only [hdec, Option.some.injEq, Prod.mk.injEq] at h
    obtain ⟨-, rfl⟩ := h
    exact tape_kept_refl s
  | some ws =>
    rw [parse_number_ok x s value ws hdec] at h
    simp only [Option.some.injEq, Prod.mk.injEq] at h
    obtain ⟨-, rfl⟩ := h
    exact append_words_kept ws s

theorem parse_root_number_tape (x : externals) (s : tape_builder) (iter : json_iterator)
    (value : List byte) (r : error_code) (s' : tape_builder)
    (h : s.parse_root_number x iter value = some (r, s')) : tape_kept s s' := by
  unfold tape_builder.parse_root_number at h
  split at h
  · simp only [Option.some.injEq, Prod.mk.injEq] at h
    obtain ⟨-, rfl⟩ := h
    exact tape_kept_refl s
  · exact parse_number_tape x s _ r s' h

theorem parse_string_tape (x : externals) (s : tape_builder) (value : List byte) (k : Bool)
    (r : error_code) (s' : tape_builder) (h : s.parse_string x value k = some (r, s')) :
    tape_kept s s' ∧
    (r = SUCCESS → s.current_string_buf_loc < s'.current_string_buf_loc) := by
  cases hdec : x.parse_string value with
  | none =>
    rw [parse_string_none x s value k hdec] at h
    simp only [Option.some.injEq, Prod.mk.injEq] at h
    obtain ⟨rfl, rfl⟩ := h
    exact ⟨append_kept x s _ _, fun e => absurd e (by decide)⟩
  | some b =>
    rw [parse_string_eq x s value b k hdec] at h
    simp only [Option.some.injEq, Prod.mk.injEq] at h
    obtain ⟨-, rfl⟩ := h
    refine ⟨?_, fun _ => ?_⟩
    · intro i hi
      show Function.update s.doc_tape s.next_tape_loc _ i = s.doc_tape i
      exact Function.update_noteq (by omega) _ _
    · show s.current_string_buf_loc < s.current_string_buf_loc + 4 + b.length + 1
      omega

theorem primitive_tape (x : externals) (s : tape_builder) (value : List byte)
    (r : error_code) (s' : tape_builder) (h : s.primitive x value = some (r, s')) :
    tape_kept s s' := by
  unfold tape_builder.primitive at h
  split at h
  · cases h
  · split at h
    · exact (parse_string_tape x s _ _ r s' h).1
    · split at h
      · exact (atom_tape x s _ _ _ r s' h).1
      · split at h
        · exact (atom_tape x s _ _ _ r s' h).1
        · split at h
          · exact (atom_tape x s _ _ _ r s' h).1
          · split at h
            · exact parse_number_tape x s _ r s' h
            · simp only [Option.some.injEq, Prod.mk.injEq] at h
              obtain ⟨-, rfl⟩ := h
              exact tape_kept_refl s

theorem root_primitive_tape (x : externals) (s : tape_builder) (iter : json_iterator)
    (value : List byte) (r : error_code) (s' : tape_builder)
    (h : s.root_primitive x iter value = some (r, s')) : tape_kept s s' := by
  unfold tape_builder.root_primitive at h
  split at h
  · cases h
  · split at h
    · exact (parse_string_tape x s _ _ r s' h).1
    · split at h
      · exact (atom_tape x s _ _ _ r s' h).1
      · split at h
        · exact (atom_tape x s _ _ _ r s' h).1
        · split at h
          · exact (atom_tape x s _ _ _ r s' h).1
          · split at h
            · exact parse_root_number_tape x s iter _ r s' h
            · simp only [Option.some.injEq, Prod.mk.injEq] at h
              obtain ⟨-, rfl⟩ := h
              exact tape_kept_refl s

theorem literal_advances (x : externals) (s : tape_builder) (iter : json_iterator)
    (c : byte) (rest : List byte) (s' : tape_builder)
    (hc : c.val = 116 ∨ c.val = 102 ∨ c.val = 110)
    (h : s.primitive x (c :: rest) = some (SUCCESS, s') ∨
      s.root_primitive x iter (c :: rest) = some (SUCCESS, s')) :
    s'.next_tape_loc = s.next_tape_loc + 1 := by
  have n1 : ¬ c.val = 34 := by omega
  rcases h with h | h
  · simp only [tape_builder.primitive, if_neg n1] at h
    by_cases h2 : c.val = 116
    · rw [if_pos h2] at h
      exact (atom_tape x s _ _ _ SUCCESS s' h).2 (by decide) rfl
    · rw [if_neg h2] at h
      by_cases h3 : c.val = 102
      · rw [if_pos h3] at h
        exact (atom_tape x s _ _ _ SUCCESS s' h).2 (by decide) rfl
      · rw [if_neg h3, if_pos (by omega : c.val = 110)] at h
        exact (atom_tape x s _ _ _ SUCCESS s' h).2 (by decide) rfl
  · simp only [tape_builder.root_primitive, if_neg n1] at h
    by_cases h2 : c.val = 116
    · rw [if_pos h2] at h
      exact (atom_tape x s _ _ _ SUCCESS s' h).2 (by decide) rfl
    · rw [if_neg h2] at h
      by_cases h3 : c.val = 102
      · rw [if_pos h3] at h
        exact (atom_tape x s _ _ _ SUCCESS s' h).2 (by decide) rfl
      · rw [if_neg h3, if_pos (by omega : c.val = 110)] at h
        exact (atom_tape x s _ _ _ SUCCESS s' h).2 (by decide) rfl

theorem start_call_eq (x : externals) (s : tape_builder) (arr : Bool) :
    (if arr then s.start_array x else s.start_object x) = s.start_scope x arr := by
  cases arr <;> rfl

theorem end_call_inv (x : externals) (s s' : tape_builder) (arr : Bool) (r : error_code)
    (h : (if arr then s.end_array x else s.end_object x) = some (r, s')) :
    s.depth < x.max_depth ∧ r = SUCCESS ∧ s' = closed x s (start_tag arr) (end_tag arr) := by
  by_cases hd : s.depth < x.max_depth
  · rw [end_call_eq x s arr hd] at h
    simp only [Option.some.injEq, Prod.mk.injEq] at h
    exact ⟨hd, h.1.symm, h.2.symm⟩
  · have : (if arr then s.end_array x else s.end_object x) = none := by
      cases arr <;>
        simp only [tape_builder.end_array, tape_builder.end_object, tape_builder.end_container,
          if_neg hd, Bool.false_eq_true, if_false, if_true]
    rw [this] at h
    cases h

theorem closed_backpatch (x : externals) (s : tape_builder) (start end_ : tape_type) (i : Nat)
    (hi : i < s.next_tape_loc)
    (hne : (closed x s start end_).doc_tape i ≠ s.doc_tape i) :
    i = (s.open_containers s.depth).tape_index := by
  by_cases h : i = (s.open_containers s.depth).tape_index
  · exact h
  · exfalso
    apply hne
    show Function.update (Function.update s.doc_tape s.next_tape_loc _) _ _ i = s.doc_tape i
    rw [Function.update_noteq h, Function.update_noteq (by omega)]

theorem document_closed_backpatch (x : externals) (s : tape_builder) (iter : json_iterator)
    (i : Nat) (hi : i < s.next_tape_loc)
    (hne : (document_closed x s iter).doc_tape i ≠ s.doc_tape i) : i = 0 := by
  by_cases h : i = 0
  · exact h
  · exfalso
    apply hne
    show Function.update (Function.update s.doc_tape s.next_tape_loc _) 0 _ i = s.doc_tape i
    rw [Function.update_noteq h, Function.update_noteq (by omega)]

theorem emptied_kept (x : externals) (s : tape_builder) (start end_ : tape_type) :
    tape_kept s (emptied x s start end_) := by
  intro i hi
  show Function.update (Function.update s.doc_tape s.next_tape_loc _) (s.next_tape_loc + 1) _ i =
    s.doc_tape i
  rw [Function.update_noteq (by omega), Function.update_noteq (by omega)]

theorem end_container_iter_tape (s : tape_builder) :
    s.end_container_iter.next_tape_loc = s.next_tape_loc ∧
    s.end_container_iter.doc_tape = s.doc_tape := by
  unfold tape_builder.end_container_iter
  exact ⟨rfl, rfl⟩

theorem step_tape (x : externals) (s : tape_builder) (e : event) (r : error_code)
    (s' : tape_builder) (h : step x s e = some (r, s')) :
    s.next_tape_loc ≤ s'.next_tape_loc ∧
    (∀ i, i < s.next_tape_loc → s'.doc_tape i ≠ s.doc_tape i → backpatch_slot s e = some i) := by
  cases e with
  | start_document =>
    by_cases hd : s.depth < x.max_depth
    · obtain ⟨s1, h1, -, h2, -⟩ := start_document_ok x s hd
      have hk : s1.doc_tape = s.doc_tape := by
        unfold tape_builder.start_document tape_builder.start_container
          tape_builder.set_is_array at h1
        simp only [if_pos hd, tape_writer.skip, Option.some.injEq, Prod.mk.injEq, true_and] at h1
        rw [← h1]
      rw [show step x s event.start_document = s.start_document x from rfl, h1] at h
      simp only [Option.some.injEq, Prod.mk.injEq] at h
      obtain ⟨-, rfl⟩ := h
      exact ⟨by omega, fun i _ hne => absurd (by rw [hk]) hne⟩
    · exfalso
      have : step x s event.start_document = none := by
        show s.start_document x = none
        unfold tape_builder.start_document tape_builder.start_container
        simp only [if_neg hd]
      rw [this] at h
      cases h
  | start_object =>
    have h' : s.start_scope x false = some (r, s') := h
    by_cases hd : (s.depth + 1) % 2 ^ 32 < x.max_depth
    · rw [start_scope_ok x s false hd] at h'
      simp only [Option.some.injEq, Prod.mk.injEq] at h'
      obtain ⟨-, rfl⟩ := h'
      exact ⟨Nat.le_succ _, fun i _ hne => absurd rfl hne⟩
    · rw [start_scope_fail x s false (by omega)] at h'
      simp only [Option.some.injEq, Prod.mk.injEq] at h'
      obtain ⟨-, rfl⟩ := h'
      exact ⟨Nat.le_refl _, fun i _ hne => absurd rfl hne⟩
  | start_array =>
    have h' : s.start_scope x true = some (r, s') := h
    by_cases hd : (s.depth + 1) % 2 ^ 32 < x.max_depth
    · rw [start_scope_ok x s true hd] at h'
      simp only [Option.some.injEq, Prod.mk.injEq] at h'
      obtain ⟨-, rfl⟩ := h'
      exact ⟨Nat.le_succ _, fun i _ hne => absurd rfl hne⟩
    · rw [start_scope_fail x s true (by omega)] at h'
      simp only [Option.some.injEq, Prod.mk.injEq] at h'
      obtain ⟨-, rfl⟩ := h'
      exact ⟨Nat.le_refl _, fun i _ hne => absurd rfl hne⟩
  | end_object =>
    obtain ⟨-, -, rfl⟩ := end_call_inv x s s' false r h
    exact ⟨Nat.le_succ _, fun i hi hne => congrArg some (closed_backpatch x s _ _ i hi hne).symm⟩
  | end_array =>
    obtain ⟨-, -, rfl⟩ := end_call_inv x s s' true r h
    exact ⟨Nat.le_succ _, fun i hi hne => congrArg some (closed_backpatch x s _ _ i hi hne).symm⟩
  | end_container =>
    simp only [step, Option.some.injEq, Prod.mk.injEq] at h
    obtain ⟨-, rfl⟩ := h
    obtain ⟨h1, h2⟩ := end_container_iter_tape s
    exact ⟨by omega, fun i _ hne => absurd (by rw [h2]) hne⟩
  | end_document iter =>
    rw [show step x s (event.end_document iter) = s.end_document x iter from rfl,
      end_document_eq] at h
    simp only [Option.some.injEq, Prod.mk.injEq] at h
    obtain ⟨-, rfl⟩ := h
    exact ⟨Nat.le_succ _,
      fun i hi hne => congrArg some (document_closed_backpatch x s iter i hi hne).symm⟩
  | key value =>
    obtain ⟨-, h2⟩ := parse_string_scopes x s value true r s' h
    exact ⟨by omega, fun i hi hne => absurd ((parse_string_tape x s value true r s' h).1 i hi) hne⟩
  | primitive value =>
    obtain ⟨-, h2⟩ := primitive_scopes x s value r s' h
    exact ⟨h2, fun i hi hne => absurd (primitive_tape x s value r s' h i hi) hne⟩
  | root_primitive iter value =>
    obtain ⟨-, h2⟩ := root_primitive_scopes x s iter value r s' h
    exact ⟨h2, fun i hi hne => absurd (root_primitive_tape x s iter value r s' h i hi) hne⟩
  | next_array_element =>
    obtain ⟨-, rfl⟩ := increment_count_inv x s s' r h
    exact ⟨Nat.le_refl _, fun i _ hne => absurd rfl hne⟩
  | next_field =>
    obtain ⟨-, rfl⟩ := increment_count_inv x s s' r h
    exact ⟨Nat.le_refl _, fun i _ hne => absurd rfl hne⟩
  | empty_object =>
    rw [show step x s event.empty_object = some (SUCCESS, emptied x s _ _) from rfl] at h
    simp only [Option.some.injEq, Prod.mk.injEq] at h
    obtain ⟨-, rfl⟩ := h
    exact ⟨Nat.le_add_right _ 2, fun i hi hne => absurd (emptied_kept x s _ _ i hi) hne⟩
  | empty_array =>
    rw [show step x s event.empty_array = some (SUCCESS, emptied x s _ _) from rfl] at h
    simp only [Option.some.injEq, Prod.mk.injEq] at h
    obtain ⟨-, rfl⟩ := h
    exact ⟨Nat.le_add_right _ 2, fun i hi hne => absurd (emptied_kept x s _ _ i hi) hne⟩

/-- C18. For every builder state: every call that returns, with success or an error,
leaves the tape cursor and the string-buffer cursor at or after where they were; the tape
cursor advances by exactly 1 on a successful `start_object` or `start_array`, on
`end_object`, `end_array` and `end_document`, on a successful literal and on every string
or key parse, and by exactly 2 on `empty_object` and `empty_array`; a successful string or
key parse moves the string-buffer cursor strictly forward; and a tape slot below the
cursor changes only as the recorded start slot of `end_object` or `end_array` or as slot 0
of `end_document`. -/
theorem cursor_monotonicity (x : externals) (s : tape_builder) :
    (∀ e r s', step x s e = some (r, s') →
      s.next_tape_loc ≤ s'.next_tape_loc ∧
      s.current_string_buf_loc ≤ s'.current_string_buf_loc) ∧
    (∀ (arr : Bool) s', (if arr then s.start_array x else s.start_object x) =
        some (SUCCESS, s') → s'.next_tape_loc = s.next_tape_loc + 1) ∧
    (∀ (arr : Bool) r s', (if arr then s.end_array x else s.end_object x) = some (r, s') →
      s'.next_tape_loc = s.next_tape_loc + 1) ∧
    (∀ arr : Bool, ∃ s', (if arr then s.empty_array x else s.empty_object x) =
        some (SUCCESS, s') ∧ s'.next_tape_loc = s.next_tape_loc + 2) ∧
    (∀ iter, ∃ r s', s.end_document x iter = some (r, s') ∧
      s'.next_tape_loc = s.next_tape_loc + 1) ∧
    (∀ iter (c : byte) rest s', (c.val = 116 ∨ c.val = 102 ∨ c.val = 110) →
      (s.primitive x (c :: rest) = some (SUCCESS, s') ∨
        s.root_primitive x iter (c :: rest) = some (SUCCESS, s')) →
      s'.next_tape_loc = s.next_tape_loc + 1) ∧
    (∀ e value r s', e.string_value = some value → step x s e = some (r, s') →
      s'.next_tape_loc = s.next_tape_loc + 1 ∧
      (r = SUCCESS → s.current_string_buf_loc < s'.current_string_buf_loc)) ∧
    (∀ e r s' i, step x s e = some (r, s') → i < s.next_tape_loc →
      s'.doc_tape i ≠ s.doc_tape i → backpatch_slot s e = some i) := by
  refine ⟨?_, ?_, ?_, ?_, ?_, ?_, ?_, ?_⟩
  · intro e r s' h
    exact ⟨(step_tape x s e r s' h).1, (step_strings x s e r s' h).1⟩
  · intro arr s' h
    rw [start_call_eq] at h
    obtain ⟨-, rfl⟩ := start_scope_inv x s s' arr h
    rfl
  · intro arr r s' h
    obtain ⟨-, -, rfl⟩ := end_call_inv x s s' arr r h
    rfl
  · intro arr
    exact ⟨_, empty_call_eq x s arr, rfl⟩
  · intro iter
    exact ⟨_, _, end_document_eq x s iter, rfl⟩
  · intro iter c rest s' hc h
    exact literal_advances x s iter c rest s' hc h
  · intro e value r s' hs h
    obtain ⟨k, hk⟩ := string_event_step x s e value hs
    rw [hk] at h
    exact ⟨(parse_string_scopes x s value k r s' h).2, (parse_string_tape x s value k r s' h).2⟩
  · intro e r s' i h hi hne
    exact (step_tape x s e r s' h).2 i hi hne

/-- C18, instance: `empty_array` and `end_document` on the sample memory with the tape
cursor at slot 7. -/
theorem cursor_monotonicity_witness :
    (∃ s', tape_builder.empty_array (sample_externals 8)
        { sample_memory with next_tape_loc := 7 } = some (SUCCESS, s') ∧
      s'.next_tape_loc = 7 + 2) ∧
    (∃ r s', tape_builder.end_document (sample_externals 8)
        { sample_memory with next_tape_loc := 7 } ⟨0, 0⟩ = some (r, s') ∧
      s'.next_tape_loc = 7 + 1) :=
  ⟨(cursor_monotonicity (sample_externals 8) { sample_memory with next_tape_loc := 7 }).2.2.2.1
      true,
   (cursor_monotonicity (sample_externals 8) { sample_memory with next_tape_loc := 7 }).2.2.2.2.1
      ⟨0, 0⟩⟩

/-! ## The depth stays in bounds -/

theorem guarded_cons (x : externals) (e : event) (es : List event) (s : tape_builder)
    (h : guarded x (e :: es) s = true) :
    (e.is_pop = true → 1 ≤ s.depth) ∧
    ∃ s1, step x s e = some (SUCCESS, s1) ∧ guarded x es s1 = true := by
  unfold guarded at h
  simp only [Bool.and_eq_true, Bool.or_eq_true, Bool.not_eq_true', decide_eq_true_eq] at h
  obtain ⟨h1, h2⟩ := h
  refine ⟨?_, ?_⟩
  · intro hp
    rcases h1 with h1 | h1
    · rw [hp] at h1
      cases h1
    · exact h1
  · cases hstep : step x s e with
    | none => rw [hstep] at h2; cases h2
    | some p =>
      obtain ⟨r, s1⟩ := p
      rw [hstep] at h2
      cases r <;> first
        | exact ⟨s1, rfl, h2⟩
        | cases h2

theorem step_depth (x : externals) (s s1 : tape_builder) (e : event)
    (h : step x s e = some (SUCCESS, s1)) (hp : e.is_pop = true → 1 ≤ s.depth)
    (hd : s.depth < x.max_depth) (h32 : s.depth < 2 ^ 32) :
    s1.depth < x.max_depth ∧ s1.depth < 2 ^ 32 := by
  have same : s1.depth = s.depth → s1.depth < x.max_depth ∧ s1.depth < 2 ^ 32 := by
    intro e1
    rw [e1]
    exact ⟨hd, h32⟩
  cases e with
  | start_document =>
    obtain ⟨s2, h2, d2, -⟩ := start_document_ok x s hd
    rw [show step x s event.start_document = s.start_document x from rfl, h2] at h
    simp only [Option.some.injEq, Prod.mk.injEq, true_and] at h
    subst h
    exact same d2
  | start_object =>
    obtain ⟨hlt, rfl⟩ := start_scope_inv x s s1 false h
    exact ⟨hlt, Nat.mod_lt _ (by decide)⟩
  | start_array =>
    obtain ⟨hlt, rfl⟩ := start_scope_inv x s s1 true h
    exact ⟨hlt, Nat.mod_lt _ (by decide)⟩
  | end_object =>
    obtain ⟨-, -, rfl⟩ := end_call_inv x s s1 false SUCCESS h
    exact same rfl
  | end_array =>
    obtain ⟨-, -, rfl⟩ := end_call_inv x s s1 true SUCCESS h
    exact same rfl
  | end_container =>
    simp only [step, Option.some.injEq, Prod.mk.injEq, true_and] at h
    subst h
    have h1 := pop_depth s (hp rfl) h32
    rw [h1]
    omega
  | end_document iter =>
    rw [show step x s (event.end_document iter) = s.end_document x iter from rfl,
      end_document_eq] at h
    simp only [Option.some.injEq, Prod.mk.injEq] at h
    obtain ⟨-, rfl⟩ := h
    exact same rfl
  | key value => exact same (value_step x s s1 (event.key value) SUCCESS rfl h).1.1
  | primitive value =>
    exact same (value_step x s s1 (event.primitive value) SUCCESS rfl h).1.1
  | root_primitive iter value => exact same (root_primitive_scopes x s iter value _ s1 h).1.1
  | next_array_element =>
    obtain ⟨-, rfl⟩ := increment_count_inv x s s1 SUCCESS h
    exact same rfl
  | next_field =>
    obtain ⟨-, rfl⟩ := increment_count_inv x s s1 SUCCESS h
    exact same rfl
  | empty_object => exact same (value_step x s s1 event.empty_object SUCCESS rfl h).1.1
  | empty_array => exact same (value_step x s s1 event.empty_array SUCCESS rfl h).1.1

theorem guarded_reach (x : externals) (before after : List event) :
    ∀ s : tape_builder, s.depth < x.max_depth → s.depth < 2 ^ 32 →
      guarded x (before ++ after) s = true →
      ∃ s1, run x before s = some (SUCCESS, s1) ∧ s1.depth < x.max_depth ∧
        s1.depth < 2 ^ 32 ∧ guarded x after s1 = true := by
  induction before with
  | nil => intro s hd h32 hg; exact ⟨s, rfl, hd, h32, hg⟩
  | cons e es ih =>
    intro s hd h32 hg
    obtain ⟨hp, s0, h0, hg0⟩ := guarded_cons x e (es ++ after) s hg
    obtain ⟨d0, d32⟩ := step_depth x s s0 e h0 hp hd h32
    obtain ⟨s1, h1, a1, a2, a3⟩ := ih s0 d0 d32 hg0
    exact ⟨s1, by rw [run_cons_success x e es s s0 h0]; exact h1, a1, a2, a3⟩

theorem in_bounds_calls (x : externals) (s : tape_builder) (hd : s.depth < x.max_depth) :
    s.in_array x = some (s.is_array s.depth) ∧
    s.in_object x = some (!s.is_array s.depth) ∧
    (s.start_document x).isSome = true ∧ (s.increment_count x).isSome = true ∧
    (s.end_object x).isSome = true ∧ (s.end_array x).isSome = true := by
  refine ⟨?_, ?_, ?_, ?_, ?_, ?_⟩
  · unfold tape_builder.in_array
    rw [if_pos hd]
  · unfold tape_builder.in_object
    rw [if_pos hd]
  · obtain ⟨s', h, -⟩ := start_document_ok x s hd
    rw [h]
    rfl
  · rw [increment_count_eq x s hd]
    rfl
  · rw [show s.end_object x = s.end_container x START_OBJECT END_OBJECT from rfl,
      end_container_eq x s _ _ hd]
    rfl
  · rw [show s.end_array x = s.end_container x START_ARRAY END_ARRAY from rfl,
      end_container_eq x s _ _ hd]
    rfl

theorem start_scope_some (x : externals) (s : tape_builder) (arr : Bool) :
    (s.start_scope x arr).isSome = true := by
  by_cases hd : (s.depth + 1) % 2 ^ 32 < x.max_depth
  · rw [start_scope_ok x s arr hd]
    rfl
  · rw [start_scope_fail x s arr (by omega)]
    rfl

/-- C16. For a depth limit `M ≥ 1`, take any call sequence from a fresh builder in which
every call returns `SUCCESS` and the one-argument `end_container` is only called at depth
1 or more. After every initial part of it the depth is below `M`, so every access to the
open-container array and the flag array at the current depth is at an index below `M`:
`in_array`, `in_object`, `start_document`, `increment_count`, `end_object` and
`end_array` have a result there, and `start_object` and `start_array`, which access the
arrays only after their depth check, have one too. -/
theorem depth_stays_in_bounds (x : externals) (mem : tape_builder)
    (before after : List event) (hM : 1 ≤ x.max_depth)
    (hg : guarded x (before ++ after) mem.init = true) :
    ∃ s, run x before mem.init = some (SUCCESS, s) ∧
      s.depth < x.max_depth ∧
      s.in_array x = some (s.is_array s.depth) ∧
      s.in_object x = some (!s.is_array s.depth) ∧
      (s.start_document x).isSome = true ∧ (s.increment_count x).isSome = true ∧
      (s.next_field x).isSome = true ∧ (s.next_array_element x).isSome = true ∧
      (s.end_object x).isSome = true ∧ (s.end_array x).isSome = true ∧
      (s.start_object x).isSome = true ∧ (s.start_array x).isSome = true := by
  obtain ⟨s, h1, h2, -, -⟩ := guarded_reach x before after mem.init
    (show (0 : Nat) < x.max_depth by omega) (show (0 : Nat) < 2 ^ 32 by decide) hg
  obtain ⟨b1, b2, b3, b4, b5, b6⟩ := in_bounds_calls x s h2
  exact ⟨s, h1, h2, b1, b2, b3, b4, b4, b4, b5, b6, start_scope_some x s false,
    start_scope_some x s true⟩

/-- C16, instance: the calls for `[1,2]` with depth limit 2, observed before `end_array`. -/
theorem depth_stays_in_bounds_witness :
    (1 ≤ (sample_externals 2).max_depth ∧
      guarded (sample_externals 2)
        ([event.start_document, event.start_array, event.primitive [49, 44, 50, 93],
            event.next_array_element, event.primitive [50, 93]] ++
          [event.end_array, event.end_container, event.end_document ⟨0, 5⟩])
        sample_memory.init = true) ∧
    ∃ s, run (sample_externals 2)
        [event.start_document, event.start_array, event.primitive [49, 44, 50, 93],
          event.next_array_element, event.primitive [50, 93]] sample_memory.init =
        some (SUCCESS, s) ∧
      s.depth < (sample_externals 2).max_depth ∧
      s.in_array (sample_externals 2) = some (s.is_array s.depth) ∧
      s.in_object (sample_externals 2) = some (!s.is_array s.depth) ∧
      (s.start_document (sample_externals 2)).isSome = true ∧
      (s.increment_count (sample_externals 2)).isSome = true ∧
      (s.next_field (sample_externals 2)).isSome = true ∧
      (s.next_array_element (sample_externals 2)).isSome = true ∧
      (s.end_object (sample_externals 2)).isSome = true ∧
      (s.end_array (sample_externals 2)).isSome = true ∧
      (s.start_object (sample_externals 2)).isSome = true ∧
      (s.start_array (sample_externals 2)).isSome = true :=
  ⟨by decide,
   depth_stays_in_bounds (sample_externals 2) sample_memory
     [event.start_document, event.start_array, event.primitive [49, 44, 50, 93],
       event.next_array_element, event.primitive [50, 93]]
     [event.end_array, event.end_container, event.end_document ⟨0, 5⟩] (by decide)
     (by decide)⟩

/-! ## A number as the whole document -/

theorem copy_bytes_eq (value : List byte) (n pad : Nat) (h : n ≤ value.length) :
    (List.range (n + pad)).map
        (tape_builder.memset (tape_builder.memcpy (fun _ => 0) value n) n 32 pad) =
      value.take n ++ List.replicate pad (32 : byte) := by
  apply List.ext_getElem
  · simp only [List.length_map, List.length_range, List.length_append, List.length_take,
      List.length_replicate]
    omega
  · intro i h1 h2
    simp only [List.getElem_map, List.getElem_range, tape_builder.memset, tape_builder.memcpy]
    by_cases hi : i < n
    · have c : ¬ (n ≤ i ∧ i < n + pad) := by omega
      have hl : i < (value.take n).length := by
        simp only [List.length_take]
        omega
      rw [if_neg c, if_pos hi, List.getElem_append_left hl, List.getElem_take,
        List.getD_eq_getElem value 0 (by omega)]
    · have c : n ≤ i ∧ i < n + pad := by
        simp only [List.length_map, List.length_range] at h1
        omega
      have hl : (value.take n).length ≤ i := by
        simp only [List.length_take]
        omega
      rw [if_pos c, List.getElem_append_right hl, List.getElem_replicate]

theorem root_number_eq (x : externals) (s : tape_builder) (iter : json_iterator) (c : byte)
    (rest : List byte) (hc : tape_builder.is_number_start c = true)
    (hm : x.malloc (iter.remaining_len + x.SIMDJSON_PADDING) = true)
    (hlen : iter.remaining_len ≤ (c :: rest).length) :
    s.root_primitive x iter (c :: rest) =
      s.parse_number x (spec_padded_copy x iter (c :: rest)) := by
  have hn := (number_start_iff c).mp hc
  have h1 : ¬ c.val = 34 := by omega
  have h2 : ¬ c.val = 116 := by omega
  have h3 : ¬ c.val = 102 := by omega
  have h4 : ¬ c.val = 110 := by omega
  have hm' : ¬ (x.malloc (iter.remaining_len + x.SIMDJSON_PADDING) = false) := by
    rw [hm]
    decide
  simp only [tape_builder.root_primitive, if_neg h1, if_neg h2, if_neg h3, if_neg h4, if_pos hc,
    tape_builder.parse_root_number, if_neg hm', spec_padded_copy]
  rw [copy_bytes_eq (c :: rest) iter.remaining_len x.SIMDJSON_PADDING hlen]

theorem parse_number_none (x : externals) (s : tape_builder) (value : List byte)
    (h : x.parse_number value = none) : s.parse_number x value = some (NUMBER_ERROR, s) := by
  unfold tape_builder.parse_number tape_builder.numberparsing_parse_number
  simp only [h]

theorem parse_number_rejects_iff (x : externals) (s : tape_builder) (value : List byte) :
    (s.parse_number x value).map Prod.fst = some NUMBER_ERROR ↔ x.parse_number value = none := by
  cases hdec : x.parse_number value with
  | none => rw [parse_number_none x s value hdec]; simp
  | some ws => rw [parse_number_ok x s value ws hdec]; simp

theorem append_words_content (ws : List Nat) : ∀ (s : tape_builder) (i : Nat), i < ws.length →
    (tape_builder.append_words s ws).doc_tape (s.next_tape_loc + i) = ws.getD i 0 % 2 ^ 64 := by
  induction ws with
  | nil => intro s i hi; simp only [List.length_nil, Nat.not_lt_zero] at hi
  | cons w ws ih =>
    intro s i hi
    cases i with
    | zero =>
      have hk := append_words_kept ws
        { s with doc_tape := Function.update s.doc_tape s.next_tape_loc (w % 2 ^ 64),
                 next_tape_loc := s.next_tape_loc + 1 } s.next_tape_loc (Nat.lt_succ_self _)
      show (tape_builder.append_words _ ws).doc_tape s.next_tape_loc = _
      rw [hk]
      simp only [Function.update_same, List.getD_cons_zero]
    | succ k =>
      have hk := ih
        { s with doc_tape := Function.update s.doc_tape s.next_tape_loc (w % 2 ^ 64),
                 next_tape_loc := s.next_tape_loc + 1 } k
        (by simp only [List.length_cons] at hi; omega)
      show (tape_builder.append_words _ ws).doc_tape (s.next_tape_loc + (k + 1)) = _
      have e : s.next_tape_loc + (k + 1) = s.next_tape_loc + 1 + k := by omega
      rw [e, List.getD_cons_succ]
      exact hk

theorem root_123_run (x : externals) (mem : tape_builder) (iter : json_iterator)
    (ws : List Nat) (hM : 1 ≤ x.max_depth) (hm : x.malloc (3 + x.SIMDJSON_PADDING) = true)
    (hdec : x.parse_number ([49, 50, 51] ++ List.replicate x.SIMDJSON_PADDING (32 : byte)) =
      some ws) :
    ∃ s', run x (root_123_events iter) mem.init = some (SUCCESS, s') ∧
      s'.next_tape_loc = ws.length + 2 ∧
      tape_tag (s'.doc_tape 0) = (x.tag ROOT).val ∧
      (∀ i, i < ws.length → s'.doc_tape (1 + i) = ws.getD i 0 % 2 ^ 64) ∧
      tape_tag (s'.doc_tape (ws.length + 1)) = (x.tag ROOT).val ∧
      tape_payload (s'.doc_tape (ws.length + 1)) = 0 := by
  obtain ⟨s1, e1, d1, l1, -⟩ := start_document_ok x mem.init (show (0 : Nat) < x.max_depth by omega)
  have l1' : s1.next_tape_loc = 1 := l1
  have d1' : s1.depth = 0 := d1
  have e2 : step x s1 (event.root_primitive ⟨3, iter.next_structural⟩ [49, 50, 51]) =
      some (SUCCESS, tape_builder.append_words s1 ws) := by
    show s1.root_primitive x ⟨3, iter.next_structural⟩ (49 :: [50, 51]) = _
    rw [root_number_eq x s1 ⟨3, iter.next_structural⟩ 49 [50, 51] (by decide) hm
      (Nat.le_refl 3)]
    exact parse_number_ok x s1 _ ws hdec
  obtain ⟨f1, -, -, -, -, f6⟩ := append_words_frame ws s1
  have hloc : (tape_builder.append_words s1 ws).next_tape_loc = ws.length + 1 := by omega
  have e3 : step x (tape_builder.append_words s1 ws) (event.end_document iter) =
      some (SUCCESS, document_closed x (tape_builder.append_words s1 ws) iter) := by
    show (tape_builder.append_words s1 ws).end_document x iter = _
    rw [end_document_eq, if_pos (by rw [f1, d1'])]
  refine ⟨document_closed x (tape_builder.append_words s1 ws) iter, ?_, ?_, ?_, ?_, ?_, ?_⟩
  · unfold root_123_events
    rw [run_cons_success x event.start_document _ _ _ e1,
      run_cons_success x (event.root_primitive _ _) _ _ _ e2,
      run_cons_success x (event.end_document iter) _ _ _ e3]
    rfl
  · show (tape_builder.append_words s1 ws).next_tape_loc + 1 = ws.length + 2
    omega
  · simp only [document_closed, Function.update_same]
    exact tape_tag_word x _ ROOT (by omega)
  · intro i hi
    have n0 : 1 + i ≠ 0 := by omega
    have n1 : 1 + i ≠ (tape_builder.append_words s1 ws).next_tape_loc := by omega
    simp only [document_closed, Function.update_noteq n0, Function.update_noteq n1]
    have := append_words_content ws s1 i hi
    rw [l1'] at this
    exact this
  · have n0 : ws.length + 1 ≠ 0 := by omega
    simp only [document_closed, Function.update_noteq n0, hloc, Function.update_same]
    exact tape_tag_word x 0 ROOT (by decide)
  · have n0 : ws.length + 1 ≠ 0 := by omega
    simp only [document_closed, Function.update_noteq n0, hloc, Function.update_same,
      tape_payload_word]
    rfl

theorem root_12x_run (x : externals) (mem : tape_builder) (iter : json_iterator)
    (hM : 1 ≤ x.max_depth) (hm : x.malloc (3 + x.SIMDJSON_PADDING) = true)
    (hdec : x.parse_number ([49, 50, 120] ++ List.replicate x.SIMDJSON_PADDING (32 : byte)) =
      none) :
    (run x (root_12x_events iter) mem.init).map Prod.fst = some NUMBER_ERROR := by
  obtain ⟨s1, e1, -⟩ := start_document_ok x mem.init (show (0 : Nat) < x.max_depth by omega)
  have e2 : step x s1 (event.root_primitive ⟨3, iter.next_structural⟩ [49, 50, 120]) =
      some (NUMBER_ERROR, s1) := by
    show s1.root_primitive x ⟨3, iter.next_structural⟩ (49 :: [50, 120]) = _
    rw [root_number_eq x s1 ⟨3, iter.next_structural⟩ 49 [50, 120] (by decide) hm
      (Nat.le_refl 3)]
    exact parse_number_none x s1 _ hdec
  unfold root_12x_events
  rw [run_cons_success x event.start_document _ _ _ e1,
    run_last_error x (event.root_primitive _ _) _ _ _ e2]
  rfl

/-- C15. When the allocation succeeds and the input has `remaining_len` bytes left,
`root_primitive` on a leading `-` (45) or digit (48..57) is `parse_number` applied to the
buffer the spec describes, the `remaining_len` bytes of the remaining input followed by
`SIMDJSON_PADDING` spaces: same result, same state; it returns `NUMBER_ERROR` exactly when
the number decoder rejects that buffer. Hence, with depth limit at least 1: if the decoder
accepts `123` followed by the padding and appends the words `ws`, the calls for the root
document `123` succeed and leave the tape ROOT, the words `ws` of the number, ROOT (with
payload 0); if the decoder rejects `12x` followed by the padding, the calls for the root
document `12x` end with `NUMBER_ERROR`. -/
theorem root_number_reparse (x : externals) (s : tape_builder) (iter : json_iterator) :
    (∀ (c : byte) (rest : List byte), (c.val = 45 ∨ (48 ≤ c.val ∧ c.val ≤ 57)) →
      x.malloc (iter.remaining_len + x.SIMDJSON_PADDING) = true →
      iter.remaining_len ≤ (c :: rest).length →
      s.root_primitive x iter (c :: rest) =
        s.parse_number x (spec_padded_copy x iter (c :: rest)) ∧
      ((s.root_primitive x iter (c :: rest)).map Prod.fst = some NUMBER_ERROR ↔
        x.parse_number (spec_padded_copy x iter (c :: rest)) = none)) ∧
    (∀ ws : List Nat, 1 ≤ x.max_depth → x.malloc (3 + x.SIMDJSON_PADDING) = true →
      x.parse_number ([49, 50, 51] ++ List.replicate x.SIMDJSON_PADDING (32 : byte)) = some ws →
      ∃ s', run x (root_123_events iter) s.init = some (SUCCESS, s') ∧
        s'.next_tape_loc = ws.length + 2 ∧
        tape_tag (s'.doc_tape 0) = (x.tag ROOT).val ∧
        (∀ i, i < ws.length → s'.doc_tape (1 + i) = ws.getD i 0 % 2 ^ 64) ∧
        tape_tag (s'.doc_tape (ws.length + 1)) = (x.tag ROOT).val ∧
        tape_payload (s'.doc_tape (ws.length + 1)) = 0) ∧
    (1 ≤ x.max_depth → x.malloc (3 + x.SIMDJSON_PADDING) = true →
      x.parse_number ([49, 50, 120] ++ List.replicate x.SIMDJSON_PADDING (32 : byte)) = none →
      (run x (root_12x_events iter) s.init).map Prod.fst = some NUMBER_ERROR) := by
  refine ⟨?_, ?_, ?_⟩
  · intro c rest hc hm hlen
    have heq := root_number_eq x s iter c rest ((number_start_iff c).mpr hc) hm hlen
    refine ⟨heq, ?_⟩
    rw [heq]
    exact parse_number_rejects_iff x s _
  · intro ws hM hm hdec
    exact root_123_run x s iter ws hM hm hdec
  · intro hM hm hdec
    exact root_12x_run x s iter hM hm hdec

/-- C15, instance: the root documents `123` and `12x` with the sample collaborators, whose
number decoder appends a tag word and the value. -/
theorem root_number_reparse_witness :
    (∃ s', run (sample_externals 8) (root_123_events ⟨0, 1⟩) sample_memory.init =
        some (SUCCESS, s') ∧
      s'.next_tape_loc = [108 * 2 ^ 56, 123].length + 2 ∧
      tape_tag (s'.doc_tape 0) = ((sample_externals 8).tag ROOT).val ∧
      (∀ i, i < [108 * 2 ^ 56, 123].length →
        s'.doc_tape (1 + i) = [108 * 2 ^ 56, 123].getD i 0 % 2 ^ 64) ∧
      tape_tag (s'.doc_tape ([108 * 2 ^ 56, 123].length + 1)) =
        ((sample_externals 8).tag ROOT).val ∧
      tape_payload (s'.doc_tape ([108 * 2 ^ 56, 123].length + 1)) = 0) ∧
    (run (sample_externals 8) (root_12x_events ⟨0, 1⟩) sample_memory.init).map Prod.fst =
      some NUMBER_ERROR :=
  ⟨(root_number_reparse (sample_externals 8) sample_memory ⟨0, 1⟩).2.1 [108 * 2 ^ 56, 123]
      (by decide) (by decide) (by decide),
   (root_number_reparse (sample_externals 8) sample_memory ⟨0, 1⟩).2.2 (by decide) (by decide)
      (by decide)⟩

end stage2
